import Mathlib

/-!
Verification development for the Kapila language implementation
(lexer, parser, virtual machine, C-generator name mangling).

Each section is a shallow embedding of one Python module of the
repository; the theorems at the end settle the specification claims.

Modelling conventions, used throughout:
* Python exceptions are modelled by explicit error results; an error
  carries the machine state at the raise point.
* Source positions (line/column) carried by tokens are omitted: no
  claim concerns them.  Error-token messages are modelled without the
  line numbers Python interpolates.
* Python's unbounded recursion is modelled with a fuel parameter; a
  distinguished out-of-fuel result separates fuel exhaustion from
  genuine program errors.
* Python `float` values are modelled as exact rationals.
-/

namespace Kapila

/-! ### Script classifier: src/unicode/kannada.py -/

/-- `DIGIT_VALUES` / `kannada_digit_value`: the Kannada digits ೦..೯ occupy
codepoints 0x0CE6..0x0CEF (base 0x0C80 + 0x66..0x6F). -/
def kannada_digit_value (c : Char) : Option Nat :=
  if 0xCE6 ≤ c.toNat ∧ c.toNat ≤ 0xCEF then some (c.toNat - 0xCE6) else none

/-- `KANNADA_DIGITS` membership (`is_kannada_digit`). -/
def is_kannada_digit (c : Char) : Bool :=
  (kannada_digit_value c).isSome

/-- `VOWELS_INDEPENDENT`: base 0x0C80 plus the offsets listed in the source. -/
def isKannadaVowel (c : Char) : Bool :=
  [0x05, 0x06, 0x07, 0x08, 0x09, 0x0A, 0x0B, 0x0C,
   0x0E, 0x0F, 0x10, 0x12, 0x13, 0x14].any (fun off => c.toNat = 0xC80 + off)

/-- `CONSONANTS`: offsets 0x15..0x39 from base 0x0C80. -/
def isKannadaConsonant (c : Char) : Bool :=
  0xC95 ≤ c.toNat ∧ c.toNat ≤ 0xCB9

/-- `LETTERS = VOWELS_INDEPENDENT | CONSONANTS` (`is_kannada_letter`,
`is_valid_identifier_start`). -/
def is_kannada_letter (c : Char) : Bool :=
  isKannadaVowel c || isKannadaConsonant c

/-- `MATRAS`: dependent vowels, base 0x0C80 plus the offsets listed. -/
def isKannadaMatra (c : Char) : Bool :=
  [0x3E, 0x3F, 0x40, 0x41, 0x42, 0x43, 0x44,
   0x46, 0x47, 0x48, 0x4A, 0x4B, 0x4C].any (fun off => c.toNat = 0xC80 + off)

/-- Model of Python `str.isdigit` restricted to the scripts Kapila uses:
ASCII digits and Kannada digits.  (Python's predicate also accepts other
scripts' decimal digits; no Kapila source text and no claim uses those.) -/
def pyIsDigit (c : Char) : Bool :=
  c.isDigit || is_kannada_digit c

/-- `is_valid_identifier_char`: letters, Kannada digits, digits (Python
`str.isdigit`), matras, halant (0x0CCD), anusvara (0x0C82), visarga
(0x0C83), underscore. -/
def is_valid_identifier_char (c : Char) : Bool :=
  is_kannada_letter c || is_kannada_digit c || pyIsDigit c ||
  isKannadaMatra c || c.toNat = 0xCCD || c.toNat = 0xC82 || c.toNat = 0xC83 ||
  c = '_'

/-- The numeric value `normalize_number` gives one character: a Kannada
digit's value, else an ASCII digit's value, else none. -/
def digitVal10 (c : Char) : Option Nat :=
  match kannada_digit_value c with
  | some v => some v
  | none => if c.isDigit then some (c.toNat - '0'.toNat) else none

/-- The accumulator loop of `normalize_number`. -/
def normalizeNumberAux : List Char → Nat → Option Nat
  | [], acc => some acc
  | c :: cs, acc =>
    match digitVal10 c with
    | some v => normalizeNumberAux cs (acc * 10 + v)
    | none => none

/-- `normalize_number(text)`: parse Kannada/ASCII (possibly mixed) digits
into an integer; `None` on the empty string or on any character that is
neither kind of digit.  The source has no decimal-separator handling:
a `.` hits the `return None` branch. -/
def normalize_number (s : String) : Option Nat :=
  if s.isEmpty then none else normalizeNumberAux s.toList 0

/-! ### C generator name mangling: src/codegen/c_generator.py -/

/-- Lowercase hex digits of `n`, most significant first, as Python's `:x`
format produces (`Nat.digitChar` yields the lowercase letters a..f). -/
def toHexCore (n : Nat) : List Char :=
  Nat.toDigits 16 n

/-- Model of Python `str.isalnum` restricted to the scripts Kapila uses:
ASCII letters/digits, Kannada letters and Kannada digits.  (Python's
predicate accepts alphanumerics of every script; Kannada matras, halant,
anusvara and visarga are combining marks, for which it returns False.) -/
def pyIsAlnum (c : Char) : Bool :=
  c.isAlphanum || is_kannada_letter c || is_kannada_digit c

/-- The per-character step of `CGenerator._mangle_name`: keep the
character when `ch.isalnum() or ch == '_'`, else emit `_<hex>_`. -/
def mangleChar (c : Char) : List Char :=
  if pyIsAlnum c || c = '_' then [c] else '_' :: (toHexCore c.toNat ++ ['_'])

/-- `CGenerator._mangle_name`: `'word_' + ''.join(...)`. -/
def mangle_name (name : String) : String :=
  "word_" ++ String.mk (name.toList.flatMap mangleChar)

/-! ### Tokens: src/lexer/tokens.py -/

/-- `TokenType` (the `NEWLINE` member exists in the source but is never
produced). -/
inductive TokenType
  | number | string | word
  | colon | assign | defEnd
  | dot | lbracket | rbracket | lbrace | rbrace | pipe
  | quote | question
  | plus | minus | star | slash | percent
  | eq | neq | lt | gt | lte | gte
  | newline | eof | error
deriving DecidableEq, Repr

/-- The parsed value a `Number` or `String` token carries (`Token.literal`).
Python floats are modelled as exact rationals. -/
inductive Lit
  | intL (n : Int)
  | floatL (q : Rat)
  | strL (s : String)
deriving DecidableEq, Repr

/-- `Token`, without the source position fields (no claim concerns them). -/
structure Token where
  type : TokenType
  value : String
  literal : Option Lit := none
deriving DecidableEq, Repr

/-- Token construction (`Lexer._make_token` / `_error_token`). -/
def mkTok (t : TokenType) (v : String) (lit : Option Lit := none) : Token :=
  ⟨t, v, lit⟩

/-! ### Lexer: src/lexer/lexer.py

The lexer state is the list of characters not yet consumed. -/

/-- `Lexer._skip_line_comment`: advance until the next newline (which is
left for the whitespace skipper). -/
def skipLineComment (l : List Char) : List Char :=
  l.dropWhile (· ≠ '\n')

/-- `Lexer._skip_block_comment` after the opening `/*` has been consumed:
advance until `*/` is consumed or the input ends. -/
def skipBlockComment : List Char → List Char
  | [] => []
  | '*' :: '/' :: rest => rest
  | _ :: rest => skipBlockComment rest

theorem skipBlockComment_length_le (l : List Char) :
    (skipBlockComment l).length ≤ l.length := by
  induction l using skipBlockComment.induct with
  | _ => simp_all [skipBlockComment]; try omega

theorem dropWhile_length_le (p : Char → Bool) (l : List Char) :
    (l.dropWhile p).length ≤ l.length := by
  induction l with
  | nil => simp
  | cons c cs ih =>
    by_cases h : p c
    · simp [List.dropWhile, h]; omega
    · simp [List.dropWhile, h]

/-- `Lexer._skip_whitespace_and_comments`. -/
def skipWs (l : List Char) : List Char :=
  match l with
  | [] => []
  | c :: rest =>
    if c = ' ' ∨ c = '\t' ∨ c = '\r' ∨ c = '\n' then skipWs rest
    else if c = '/' ∧ rest.head? = some '/' then skipWs (skipLineComment (rest.drop 1))
    else if c = '/' ∧ rest.head? = some '*' then skipWs (skipBlockComment (rest.drop 1))
    else c :: rest
termination_by l.length
decreasing_by
  all_goals simp [skipLineComment]
  · have h1 := dropWhile_length_le (· ≠ '\n') (rest.drop 1); simp at h1 ⊢; omega
  · have h1 := skipBlockComment_length_le (rest.drop 1); simp at h1 ⊢; omega

theorem skipWs_length_le (l : List Char) : (skipWs l).length ≤ l.length := by
  induction l using skipWs.induct with
  | case1 => simp [skipWs]
  | case2 c rest h ih => rw [skipWs]; simp [h]; omega
  | case3 c rest h h2 ih =>
    rw [skipWs]; simp [h, h2]
    have h1 := dropWhile_length_le (· ≠ '\n') (rest.drop 1)
    simp [skipLineComment] at *; omega
  | case4 c rest h h2 h3 ih =>
    rw [skipWs]; simp [h, h2, h3]
    have h1 := skipBlockComment_length_le (rest.drop 1)
    simp at *; omega
  | case5 c rest h h2 h3 => rw [skipWs]; simp [h, h2, h3]

/-- Model of Python `str.isalpha` restricted to the scripts Kapila uses
(ASCII and Kannada letters). -/
def pyIsAlpha (c : Char) : Bool :=
  c.isAlpha || is_kannada_letter c

/-- `Lexer._is_word_start`: `_`, `isalpha`, or `is_valid_identifier_start`
(the latter is exactly the Kannada letters). -/
def is_word_start (c : Char) : Bool :=
  c = '_' || pyIsAlpha c || is_kannada_letter c

/-- `Lexer._is_word_char`: `_`, `-` (kebab-case), `isalnum`, or
`is_valid_identifier_char`. -/
def is_word_char (c : Char) : Bool :=
  c = '_' || c = '-' || pyIsAlnum c || is_valid_identifier_char c

/-- The loop of `Lexer._scan_number`: consume digits of either script and
at most one `.` that is immediately followed by a digit.  Returns the
consumed lexeme, the `has_dot` flag, and the rest of the input. -/
def numLoop : List Char → Bool → List Char → List Char × Bool × List Char
  | [], hasDot, acc => (acc, hasDot, [])
  | c :: rest, hasDot, acc =>
    if pyIsDigit c then numLoop rest hasDot (acc ++ [c])
    else if c = '.' ∧ hasDot = false then
      match rest with
      | d :: _ =>
        if pyIsDigit d then numLoop rest true (acc ++ [c])
        else (acc, hasDot, c :: rest)
      | [] => (acc, hasDot, c :: rest)
    else (acc, hasDot, c :: rest)

/-- Base-10 value of a digit lexeme (both scripts), as
`Lexer._parse_number` computes it by normalising Kannada digits and
calling `int`. -/
def digitsToNat (l : List Char) : Nat :=
  l.foldl (fun a c => a * 10 + (digitVal10 c).getD 0) 0

/-- `Lexer._parse_number`: integer value without a dot, else the exact
decimal value (Python parses the normalised text with `float`, which
rounds to binary; the claims compare no float literals). -/
def litOfLexeme (chars : List Char) (isFloat : Bool) : Lit :=
  if isFloat then
    let ip := chars.takeWhile (· ≠ '.')
    let fp := (chars.dropWhile (· ≠ '.')).drop 1
    .floatL ((digitsToNat ip : Rat) + (digitsToNat fp : Rat) / ((10 : Rat) ^ fp.length))
  else .intL (digitsToNat chars)

/-- The escape table of `Lexer._scan_string`; any unlisted escape passes
through as itself. -/
def escMap (c : Char) : Char :=
  if c = 'n' then '\n' else if c = 't' then '\t' else if c = 'r' then '\r'
  else if c = '\\' then '\\' else if c = '"' then '"'
  else if c = '0' then Char.ofNat 0 else c

/-- The loop of `Lexer._scan_string`, after the opening quote: returns
`(raw source slice, decoded literal, rest)`, or `none` when the string is
unterminated (a bare backslash at end of input, or no closing quote). -/
def stringLoop : List Char → List Char → List Char → Option (String × String × List Char)
  | [], _, _ => none
  | '\\' :: rest, raw, lit =>
    match rest with
    | [] => none
    | e :: rest' => stringLoop rest' (raw ++ ['\\', e]) (lit ++ [escMap e])
  | '"' :: rest, raw, lit => some (String.mk raw, String.mk lit, rest)
  | c :: rest, raw, lit => stringLoop rest (raw ++ [c]) (lit ++ [c])

/-- The single-character token table of `Lexer.next_token`
(`simple_tokens`). -/
def simpleToken : Char → Option TokenType
  | '.' => some .dot
  | ':' => some .colon
  | '[' => some .lbracket
  | ']' => some .rbracket
  | '{' => some .lbrace
  | '}' => some .rbrace
  | '|' => some .pipe
  | '\'' => some .quote
  | '?' => some .question
  | '+' => some .plus
  | '-' => some .minus
  | '*' => some .star
  | '/' => some .slash
  | '%' => some .percent
  | '=' => some .eq
  | '<' => some .lt
  | '>' => some .gt
  | '≠' => some .neq
  | '≤' => some .lte
  | '≥' => some .gte
  | _ => none

/-- Python's `repr` of a one-character string, as interpolated by the
"Unexpected character" diagnostic (special-character escaping that `repr`
would apply is not modelled). -/
def pyReprChar (c : Char) : String :=
  "'" ++ String.mk [c] ++ "'"

/-- `Lexer.next_token`: skip whitespace/comments, then scan one token.
Unterminated-string diagnostics are modelled without Python's interpolated
line number. -/
def nextToken (l : List Char) : Token × List Char :=
  match skipWs l with
  | [] => (mkTok .eof "", [])
  | c :: rest =>
    if pyIsDigit c then
      match numLoop rest false [c] with
      | (ds, hasDot, r) => (mkTok .number (String.mk ds) (some (litOfLexeme ds hasDot)), r)
    else if c = '"' then
      match stringLoop rest [] [] with
      | some (raw, lit, r) => (mkTok .string ("\"" ++ raw ++ "\"") (some (.strL lit)), r)
      | none => (mkTok .error "Unterminated string", [])
    else if is_word_start c then
      (mkTok .word (String.mk (c :: rest.takeWhile is_word_char)), rest.dropWhile is_word_char)
    else if c = ':' ∧ rest.head? = some '=' then (mkTok .assign ":=", rest.drop 1)
    else if c = '!' ∧ rest.head? = some '=' then (mkTok .neq "!=", rest.drop 1)
    else if c = '<' ∧ rest.head? = some '=' then (mkTok .lte "<=", rest.drop 1)
    else if c = '>' ∧ rest.head? = some '=' then (mkTok .gte ">=", rest.drop 1)
    else
      match simpleToken c with
      | some tt => (mkTok tt (String.mk [c]), rest)
      | none =>
        if c = '॥' then (mkTok .defEnd (String.mk [c]), rest)
        else (mkTok .error ("Unexpected character: " ++ pyReprChar c), rest)

theorem numLoop_rest_le : ∀ (l : List Char) (b : Bool) (acc : List Char),
    (numLoop l b acc).2.2.length ≤ l.length := by
  intro l
  induction l with
  | nil => intro b acc; simp [numLoop]
  | cons c rest ih =>
    intro b acc
    simp only [numLoop]
    split_ifs with h1 h2
    · exact le_trans (ih b (acc ++ [c])) (by simp)
    · cases rest with
      | nil => simp
      | cons d tail =>
        dsimp only
        split_ifs with h3
        · exact le_trans (ih true (acc ++ [c])) (by simp)
        · simp
    · simp

theorem stringLoop_rest_le : ∀ (l raw lit : List Char) (s1 s2 : String) (r : List Char),
    stringLoop l raw lit = some (s1, s2, r) → r.length ≤ l.length := by
  intro l raw lit
  induction l, raw, lit using stringLoop.induct with
  | _ =>
    intro s1 s2 r hr
    simp_all [stringLoop]
    try omega

/-- A non-EOF token consumes at least one character: the lexer makes
progress. -/
theorem nextToken_progress (l : List Char) :
    (nextToken l).1.type ≠ .eof → (nextToken l).2.length < l.length := by
  intro hne
  have hws := skipWs_length_le l
  unfold nextToken at *
  cases hsk : skipWs l with
  | nil => simp [hsk, mkTok] at hne
  | cons c rest =>
    rw [hsk] at hws
    simp only [hsk] at hne ⊢
    simp at hws
    split
    · have h1 := numLoop_rest_le rest false [c]
      cases hnl : numLoop rest false [c] with
      | mk ds hr => simp [hnl] at h1 ⊢; omega
    · split
      · cases hsl : stringLoop rest [] [] with
        | none => simp [hsl]; omega
        | some v =>
          obtain ⟨s1, s2, r⟩ := v
          have h2 := stringLoop_rest_le rest [] [] s1 s2 r hsl
          simp [hsl]; omega
      · split
        · have h3 := dropWhile_length_le is_word_char rest
          simp; omega
        · split
          · simp; cases rest <;> simp_all <;> omega
          · split
            · simp; cases rest <;> simp_all <;> omega
            · split
              · simp; cases rest <;> simp_all <;> omega
              · split
                · simp; cases rest <;> simp_all <;> omega
                · split
                  · simp; omega
                  · split
                    · simp; omega
                    · simp; omega

/-- `Lexer.scan_all`: scan tokens until (and including) the EOF token. -/
def scanAll (l : List Char) : List Token :=
  match hnt : nextToken l with
  | (t, rest) =>
    if t.type = .eof then [t] else t :: scanAll rest
termination_by l.length
decreasing_by
  have := nextToken_progress l
  rw [hnt] at this
  simp_all

/-- `tokenize(source)`. -/
def tokenize (source : String) : List Token :=
  scanAll source.toList

/-- The well-formedness hypothesis of the lexer claim, defined on the
source text by the same positional scan the lexer performs but without
reference to tokens: `true` exactly when the scan meets an unterminated
string or a stray character no rule accepts (the two `_error_token`
sites). -/
def hasLexErr (l : List Char) : Bool :=
  match hsk : skipWs l with
  | [] => false
  | c :: rest =>
    if pyIsDigit c then hasLexErr (numLoop rest false [c]).2.2
    else if c = '"' then
      match hsl : stringLoop rest [] [] with
      | some (_, _, r) => hasLexErr r
      | none => true
    else if is_word_start c then hasLexErr (rest.dropWhile is_word_char)
    else if c = ':' ∧ rest.head? = some '=' then hasLexErr (rest.drop 1)
    else if c = '!' ∧ rest.head? = some '=' then hasLexErr (rest.drop 1)
    else if c = '<' ∧ rest.head? = some '=' then hasLexErr (rest.drop 1)
    else if c = '>' ∧ rest.head? = some '=' then hasLexErr (rest.drop 1)
    else
      match simpleToken c with
      | some _ => hasLexErr rest
      | none => if c = '॥' then hasLexErr rest else true
termination_by l.length
decreasing_by
  all_goals (have hws := skipWs_length_le l; rw [hsk] at hws; simp at hws)
  all_goals try (have h2 := stringLoop_rest_le rest [] [] _ _ _ hsl)
  all_goals try (have h1 := numLoop_rest_le rest false [c])
  all_goals try (have h3 := dropWhile_length_le is_word_char rest)
  all_goals simp [List.length_drop]
  all_goals omega

/-! ### AST: src/parser/ast.py

Nodes carry the same fields as the Python dataclasses, minus source
positions.  `numberLit`/`stringLit` carry the token's `literal` field. -/

inductive AstExpr
  | numberLit (value : Option Lit)
  | stringLit (value : Option Lit)
  | boolLit (value : Bool)
  | wordE (name : String)
  | quotedWord (name : String)
  | blockE (params : List String) (body : List AstExpr)
  | listLit (elements : List AstExpr)
  | mapLit (pairs : List (String × AstExpr))
  | binaryExpr (left : AstExpr) (op : String) (right : AstExpr)
  | unaryExpr (op : String) (operand : AstExpr)
  | conditional (condition : AstExpr) (true_block : AstExpr) (false_block : Option AstExpr)
  | postfixA (value : AstExpr) (actions : List String)

inductive AstStmt
  | wordDef (name : String) (body : List AstExpr)
  | varAssign (name : String) (value : AstExpr)
  | exprStmt (e : AstExpr)

/-! ### Parser: src/parser/parser.py

The parser state is an index `pos` into a fixed token list `ts`.
`Parser._peek` yields a synthesised EOF token past the end.  A result is
`pok` (value and new position), `perr` (a raised `ParseError`, carrying
the position at the raise point, from which `parse` resynchronises), or
`pfuel` (the fuel bound was hit; Python has no such bound). -/

inductive PRes (α : Type)
  | pok (a : α) (pos : Nat)
  | perr (msg : String) (pos : Nat)
  | pfuel

/-- The token `Parser._peek` fabricates past the end:
`Token(EOF, "", 0, 0)`. -/
def eofTok : Token := mkTok .eof ""

/-- `Parser._peek`. -/
def peekAt (ts : List Token) (pos : Nat) : Token :=
  ts.getD pos eofTok

/-- `Parser._at_end`. -/
def atEnd (ts : List Token) (pos : Nat) : Bool :=
  (peekAt ts pos).type = .eof

/-- `Parser._advance`: return the current token; move only when not at
end. -/
def advanceP (ts : List Token) (pos : Nat) : Token × Nat :=
  (peekAt ts pos, if atEnd ts pos then pos else pos + 1)

theorem peekAt_eof_of_ge (ts : List Token) (pos : Nat) (h : ts.length ≤ pos) :
    peekAt ts pos = eofTok := by
  simp [peekAt, List.getD_eq_getElem?_getD, List.getElem?_eq_none (by omega : ts.length ≤ pos)]

theorem lt_length_of_peekAt_ne_eof (ts : List Token) (pos : Nat)
    (h : ¬ (peekAt ts pos).type = .eof) : pos < ts.length := by
  by_contra hge
  exact h (by rw [peekAt_eof_of_ge ts pos (by omega)]; rfl)

/-- The two spellings each of true and false that the parser treats as
boolean literals. -/
def boolWords : List String := ["ನಿಜ", "true", "ಸುಳ್ಳು", "false"]

/-- The operator token types the bracket disambiguation treats as
block evidence (`PLUS`..`GTE` in `Parser._block_or_list`). -/
def isOpTT : TokenType → Bool
  | .plus | .minus | .star | .slash | .percent
  | .eq | .neq | .lt | .gt | .lte | .gte => true
  | _ => false

/-- The classification loop of `Parser._block_or_list`, over the tokens
following the opening bracket: walk with depth tracking until the
matching `]` or end of input, setting the block flag on any Word that is
not a boolean keyword, any Pipe, or any operator token — at any depth. -/
def classifyScan : List Token → Nat → Bool → Bool
  | [], _, acc => acc
  | t :: rest, depth, acc =>
    if t.type = .eof then acc
    else if t.type = .lbracket then classifyScan rest (depth + 1) acc
    else if t.type = .rbracket then
      if depth = 1 then acc else classifyScan rest (depth - 1) acc
    else if t.type = .word then
      if t.value ∈ boolWords then classifyScan rest depth acc
      else classifyScan rest depth true
    else if t.type = .pipe then classifyScan rest depth true
    else if isOpTT t.type then classifyScan rest depth true
    else classifyScan rest depth acc

/-- The tokens strictly between the opening bracket and its matching
close (crossing nested brackets), cut at end of input: the span the
classification loop walks. -/
def insideSpan : List Token → Nat → List Token
  | [], _ => []
  | t :: rest, depth =>
    if t.type = .eof then []
    else if t.type = .lbracket then t :: insideSpan rest (depth + 1)
    else if t.type = .rbracket then
      if depth = 1 then [] else t :: insideSpan rest (depth - 1)
    else t :: insideSpan rest depth

/-- A token that makes the bracket scan classify Block. -/
def isTrigger (t : Token) : Bool :=
  (t.type = .word && !(t.value ∈ boolWords)) || t.type = .pipe || isOpTT t.type

/-- `Parser._number` (plain advance). -/
def pNumberL (ts : List Token) (pos : Nat) : AstExpr × Nat :=
  match advanceP ts pos with
  | (t, p) => (.numberLit t.literal, p)

/-- `Parser._string`. -/
def pStringL (ts : List Token) (pos : Nat) : AstExpr × Nat :=
  match advanceP ts pos with
  | (t, p) => (.stringLit t.literal, p)

/-- `Parser._word`. -/
def pWordP (ts : List Token) (pos : Nat) : AstExpr × Nat :=
  match advanceP ts pos with
  | (t, p) => (.wordE t.value, p)

/-- `Parser._word_or_bool`. -/
def pWordOrBool (ts : List Token) (pos : Nat) : AstExpr × Nat :=
  let t := peekAt ts pos
  if t.value = "ನಿಜ" ∨ t.value = "true" then (.boolLit true, (advanceP ts pos).2)
  else if t.value = "ಸುಳ್ಳು" ∨ t.value = "false" then (.boolLit false, (advanceP ts pos).2)
  else pWordP ts pos

/-- `Parser._quoted_word`: skip the quote, then require a Word. -/
def pQuotedWord (ts : List Token) (pos : Nat) : PRes AstExpr :=
  let pos1 := (advanceP ts pos).2
  if (peekAt ts pos1).type = .word then
    match advanceP ts pos1 with
    | (t, p) => .pok (.quotedWord t.value) p
  else .perr "Expected word after quote" pos1

/-- The parameter scan of `Parser._block_body`: consume Words; on a Pipe
the collected names (pipe consumed) are the parameters, on anything else
give up (the caller resets the position). -/
def paramScan (ts : List Token) (pos : Nat) (temp : List String) :
    Option (List String × Nat) :=
  if h : (peekAt ts pos).type = .word then
    let t := peekAt ts pos
    let pos1 := (advanceP ts pos).2
    if (peekAt ts pos1).type = .pipe then some (temp ++ [t.value], (advanceP ts pos1).2)
    else paramScan ts pos1 (temp ++ [t.value])
  else none
termination_by ts.length - pos
decreasing_by
  have hlt := lt_length_of_peekAt_ne_eof ts pos (by simp [h])
  simp [advanceP, atEnd, h]
  omega

/-- The postfix-action loop of `Parser._expr_stmt`: absorb trailing
Words, putting back a Word that begins a definition or assignment. -/
def actionsLoop (ts : List Token) (pos : Nat) (acc : List String) : List String × Nat :=
  if h : (peekAt ts pos).type = .word ∧ atEnd ts pos = false then
    let t := peekAt ts pos
    let pos1 := (advanceP ts pos).2
    if (peekAt ts pos1).type = .colon ∨ (peekAt ts pos1).type = .assign then
      (acc, pos1 - 1)
    else actionsLoop ts pos1 (acc ++ [t.value])
  else (acc, pos)
termination_by ts.length - pos
decreasing_by
  have hlt := lt_length_of_peekAt_ne_eof ts pos (by simp [h.1])
  simp [advanceP, atEnd, h.1]
  omega

/-- The loop of `Parser._synchronize` (after its initial advance). -/
def syncLoop (ts : List Token) (pos : Nat) : Nat :=
  if h : atEnd ts pos then pos
  else if (peekAt ts pos).type = .dot ∨ (peekAt ts pos).type = .defEnd then
    (advanceP ts pos).2
  else if (peekAt ts pos).type = .word ∧ (peekAt ts (pos + 1)).type = .colon then pos
  else syncLoop ts ((advanceP ts pos).2)
termination_by ts.length - pos
decreasing_by
  have hlt := lt_length_of_peekAt_ne_eof ts pos (by simpa [atEnd] using h)
  simp [advanceP, h]
  omega

/-- `Parser._synchronize`. -/
def pSynchronize (ts : List Token) (pos : Nat) : Nat :=
  syncLoop ts ((advanceP ts pos).2)

/-- Comparison operator spellings (`op_types` in `Parser._comparison`;
the AST op string is the canonical ASCII spelling, not the lexeme). -/
def cmpOpStr : TokenType → Option String
  | .eq => some "="
  | .neq => some "!="
  | .lt => some "<"
  | .gt => some ">"
  | .lte => some "<="
  | .gte => some ">="
  | _ => none

mutual

/-- `Parser._expression`. -/
def pExpression (ts : List Token) : Nat → Nat → PRes AstExpr
  | 0, _ => .pfuel
  | f + 1, pos => pTernary ts f pos
  termination_by structural f pos => f

/-- `Parser._ternary`: `or ('?' block block?)?`. -/
def pTernary (ts : List Token) : Nat → Nat → PRes AstExpr
  | 0, _ => .pfuel
  | f + 1, pos =>
    match pOr ts f pos with
    | .pok e pos1 =>
      if (peekAt ts pos1).type = .question then
        match pBlock ts f ((advanceP ts pos1).2) with
        | .pok tb pos3 =>
          if (peekAt ts pos3).type = .lbracket then
            match pBlock ts f pos3 with
            | .pok fb pos4 => .pok (.conditional e tb (some fb)) pos4
            | .perr m p => .perr m p
            | .pfuel => .pfuel
          else .pok (.conditional e tb none) pos3
        | .perr m p => .perr m p
        | .pfuel => .pfuel
      else .pok e pos1
    | .perr m p => .perr m p
    | .pfuel => .pfuel
  termination_by structural f pos => f

/-- `Parser._or`. -/
def pOr (ts : List Token) : Nat → Nat → PRes AstExpr
  | 0, _ => .pfuel
  | f + 1, pos =>
    match pAnd ts f pos with
    | .pok l pos1 => pOrLoop ts f pos1 l
    | .perr m p => .perr m p
    | .pfuel => .pfuel
  termination_by structural f pos => f

/-- The left-associative accumulation loop of `Parser._or`. -/
def pOrLoop (ts : List Token) : Nat → Nat → AstExpr → PRes AstExpr
  | 0, _, _ => .pfuel
  | f + 1, pos, left =>
    let t := peekAt ts pos
    if t.type = .word ∧ (t.value = "ಅಥವಾ" ∨ t.value = "or") then
      match pAnd ts f ((advanceP ts pos).2) with
      | .pok r pos2 => pOrLoop ts f pos2 (.binaryExpr left t.value r)
      | .perr m p => .perr m p
      | .pfuel => .pfuel
    else .pok left pos
  termination_by structural f pos acc => f

/-- `Parser._and`. -/
def pAnd (ts : List Token) : Nat → Nat → PRes AstExpr
  | 0, _ => .pfuel
  | f + 1, pos =>
    match pComparison ts f pos with
    | .pok l pos1 => pAndLoop ts f pos1 l
    | .perr m p => .perr m p
    | .pfuel => .pfuel
  termination_by structural f pos => f

/-- The accumulation loop of `Parser._and`. -/
def pAndLoop (ts : List Token) : Nat → Nat → AstExpr → PRes AstExpr
  | 0, _, _ => .pfuel
  | f + 1, pos, left =>
    let t := peekAt ts pos
    if t.type = .word ∧ (t.value = "ಮತ್ತು" ∨ t.value = "and") then
      match pComparison ts f ((advanceP ts pos).2) with
      | .pok r pos2 => pAndLoop ts f pos2 (.binaryExpr left t.value r)
      | .perr m p => .perr m p
      | .pfuel => .pfuel
    else .pok left pos
  termination_by structural f pos acc => f

/-- `Parser._comparison`. -/
def pComparison (ts : List Token) : Nat → Nat → PRes AstExpr
  | 0, _ => .pfuel
  | f + 1, pos =>
    match pAdditive ts f pos with
    | .pok l pos1 => pCompLoop ts f pos1 l
    | .perr m p => .perr m p
    | .pfuel => .pfuel
  termination_by structural f pos => f

/-- The accumulation loop of `Parser._comparison`. -/
def pCompLoop (ts : List Token) : Nat → Nat → AstExpr → PRes AstExpr
  | 0, _, _ => .pfuel
  | f + 1, pos, left =>
    match cmpOpStr (peekAt ts pos).type with
    | some op =>
      match pAdditive ts f ((advanceP ts pos).2) with
      | .pok r pos2 => pCompLoop ts f pos2 (.binaryExpr left op r)
      | .perr m p => .perr m p
      | .pfuel => .pfuel
    | none => .pok left pos
  termination_by structural f pos acc => f

/-- `Parser._additive`. -/
def pAdditive (ts : List Token) : Nat → Nat → PRes AstExpr
  | 0, _ => .pfuel
  | f + 1, pos =>
    match pMultiplicative ts f pos with
    | .pok l pos1 => pAddLoop ts f pos1 l
    | .perr m p => .perr m p
    | .pfuel => .pfuel
  termination_by structural f pos => f

/-- The accumulation loop of `Parser._additive` (the op string is the
token's lexeme). -/
def pAddLoop (ts : List Token) : Nat → Nat → AstExpr → PRes AstExpr
  | 0, _, _ => .pfuel
  | f + 1, pos, left =>
    let t := peekAt ts pos
    if t.type = .plus ∨ t.type = .minus then
      match pMultiplicative ts f ((advanceP ts pos).2) with
      | .pok r pos2 => pAddLoop ts f pos2 (.binaryExpr left t.value r)
      | .perr m p => .perr m p
      | .pfuel => .pfuel
    else .pok left pos
  termination_by structural f pos acc => f

/-- `Parser._multiplicative`. -/
def pMultiplicative (ts : List Token) : Nat → Nat → PRes AstExpr
  | 0, _ => .pfuel
  | f + 1, pos =>
    match pUnary ts f pos with
    | .pok l pos1 => pMulLoop ts f pos1 l
    | .perr m p => .perr m p
    | .pfuel => .pfuel
  termination_by structural f pos => f

/-- The accumulation loop of `Parser._multiplicative`. -/
def pMulLoop (ts : List Token) : Nat → Nat → AstExpr → PRes AstExpr
  | 0, _, _ => .pfuel
  | f + 1, pos, left =>
    let t := peekAt ts pos
    if t.type = .star ∨ t.type = .slash ∨ t.type = .percent then
      match pUnary ts f ((advanceP ts pos).2) with
      | .pok r pos2 => pMulLoop ts f pos2 (.binaryExpr left t.value r)
      | .perr m p => .perr m p
      | .pfuel => .pfuel
    else .pok left pos
  termination_by structural f pos acc => f

/-- `Parser._unary`. -/
def pUnary (ts : List Token) : Nat → Nat → PRes AstExpr
  | 0, _ => .pfuel
  | f + 1, pos =>
    let t := peekAt ts pos
    if t.type = .minus then
      match pUnary ts f ((advanceP ts pos).2) with
      | .pok operand p => .pok (.unaryExpr "-" operand) p
      | .perr m p => .perr m p
      | .pfuel => .pfuel
    else if t.type = .word ∧ (t.value = "ಅಲ್ಲ" ∨ t.value = "not") then
      match pUnary ts f ((advanceP ts pos).2) with
      | .pok operand p => .pok (.unaryExpr t.value operand) p
      | .perr m p => .perr m p
      | .pfuel => .pfuel
    else pPrimary ts f pos
  termination_by structural f pos => f

/-- `Parser._primary`.  On a token no expression can start with, return
an empty `Word` WITHOUT consuming anything (source comment: "will be
handled as error later"). -/
def pPrimary (ts : List Token) : Nat → Nat → PRes AstExpr
  | 0, _ => .pfuel
  | f + 1, pos =>
    let t := peekAt ts pos
    if t.type = .number then match pNumberL ts pos with | (e, p) => .pok e p
    else if t.type = .string then match pStringL ts pos with | (e, p) => .pok e p
    else if t.type = .word then match pWordOrBool ts pos with | (e, p) => .pok e p
    else if t.type = .lbracket then pBlockOrList ts f pos
    else if t.type = .lbrace then pMap ts f pos
    else if t.type = .quote then pQuotedWord ts pos
    else .pok (.wordE "") pos
  termination_by structural f pos => f

/-- `Parser._block_or_list`: consume `[`, pre-scan to classify, then
parse as block or list from the saved position. -/
def pBlockOrList (ts : List Token) : Nat → Nat → PRes AstExpr
  | 0, _ => .pfuel
  | f + 1, pos =>
    let pos1 := (advanceP ts pos).2
    if classifyScan (ts.drop pos1) 1 false then pBlockBody ts f pos1
    else pListBody ts f pos1 []
  termination_by structural f pos => f

/-- `Parser._block`: require `[`, then the block body. -/
def pBlock (ts : List Token) : Nat → Nat → PRes AstExpr
  | 0, _ => .pfuel
  | f + 1, pos =>
    if (peekAt ts pos).type = .lbracket then pBlockBody ts f ((advanceP ts pos).2)
    else .perr "Expected '['" pos
  termination_by structural f pos => f

/-- `Parser._block_body`: optional `name … |` parameters, then raw body
elements up to the required `]`. -/
def pBlockBody (ts : List Token) : Nat → Nat → PRes AstExpr
  | 0, _ => .pfuel
  | f + 1, pos =>
    let pr := (paramScan ts pos []).getD ([], pos)
    match pBodyLoop ts .rbracket f pr.2 [] with
    | .pok body pos2 =>
      if (peekAt ts pos2).type = .rbracket then
        .pok (.blockE pr.1 body) ((advanceP ts pos2).2)
      else .perr "Expected ']'" pos2
    | .perr m p => .perr m p
    | .pfuel => .pfuel
  termination_by structural f pos => f

/-- The element-collection loop shared by `Parser._word_def` (stop token
`DEF_END`) and `Parser._block_body` (stop token `RBRACKET`); elements the
body parser skips (`None`) are not appended. -/
def pBodyLoop (ts : List Token) (stopT : TokenType) : Nat → Nat → List AstExpr → PRes (List AstExpr)
  | 0, _, _ => .pfuel
  | f + 1, pos, acc =>
    if (peekAt ts pos).type = stopT ∨ atEnd ts pos then .pok acc pos
    else
      match pParseBodyElement ts f pos with
      | .pok oe pos' => pBodyLoop ts stopT f pos' (acc ++ oe.toList)
      | .perr m p => .perr m p
      | .pfuel => .pfuel
  termination_by structural f pos acc => f

/-- `Parser._parse_body_element`: one raw (postfix) body element; an
operator token becomes a `Word` of its lexeme; an unknown token is
skipped with `None`. -/
def pParseBodyElement (ts : List Token) : Nat → Nat → PRes (Option AstExpr)
  | 0, _ => .pfuel
  | f + 1, pos =>
    let t := peekAt ts pos
    if t.type = .number then match pNumberL ts pos with | (e, p) => .pok (some e) p
    else if t.type = .string then match pStringL ts pos with | (e, p) => .pok (some e) p
    else if t.type = .word then match pWordP ts pos with | (e, p) => .pok (some e) p
    else if t.type = .lbracket then
      match pBlock ts f pos with
      | .pok e p => .pok (some e) p
      | .perr m p => .perr m p
      | .pfuel => .pfuel
    else if t.type = .lbrace then
      match pMap ts f pos with
      | .pok e p => .pok (some e) p
      | .perr m p => .perr m p
      | .pfuel => .pfuel
    else if t.type = .quote then
      match pQuotedWord ts pos with
      | .pok e p => .pok (some e) p
      | .perr m p => .perr m p
      | .pfuel => .pfuel
    else if isOpTT t.type then
      match advanceP ts pos with
      | (tok, p) => .pok (some (.wordE tok.value)) p
    else .pok none ((advanceP ts pos).2)
  termination_by structural f pos => f

/-- `Parser._list_body`: parse expressions until `]` or end of input,
then require `]`.  Every parsed element is appended (`if elem:` is
always true of a dataclass instance). -/
def pListBody (ts : List Token) : Nat → Nat → List AstExpr → PRes AstExpr
  | 0, _, _ => .pfuel
  | f + 1, pos, acc =>
    if ¬((peekAt ts pos).type = .rbracket) ∧ atEnd ts pos = false then
      match pExpression ts f pos with
      | .pok e pos' => pListBody ts f pos' (acc ++ [e])
      | .perr m p => .perr m p
      | .pfuel => .pfuel
    else
      if (peekAt ts pos).type = .rbracket then .pok (.listLit acc) ((advanceP ts pos).2)
      else .perr "Expected ']'" pos
  termination_by structural f pos acc => f

/-- `Parser._map`: `{ word : expr … }`, skipping unrecognised tokens. -/
def pMap (ts : List Token) : Nat → Nat → PRes AstExpr
  | 0, _ => .pfuel
  | f + 1, pos =>
    match pMapLoop ts f ((advanceP ts pos).2) [] with
    | .pok pairs pos2 =>
      if (peekAt ts pos2).type = .rbrace then .pok (.mapLit pairs) ((advanceP ts pos2).2)
      else .perr "Expected '\x7d'" pos2
    | .perr m p => .perr m p
    | .pfuel => .pfuel
  termination_by structural f pos => f

/-- The pair-collection loop of `Parser._map`. -/
def pMapLoop (ts : List Token) : Nat → Nat → List (String × AstExpr) → PRes (List (String × AstExpr))
  | 0, _, _ => .pfuel
  | f + 1, pos, acc =>
    if ¬((peekAt ts pos).type = .rbrace) ∧ atEnd ts pos = false then
      if (peekAt ts pos).type = .word then
        let kt := peekAt ts pos
        let pos1 := (advanceP ts pos).2
        if (peekAt ts pos1).type = .colon then
          match pExpression ts f ((advanceP ts pos1).2) with
          | .pok v pos2 => pMapLoop ts f pos2 (acc ++ [(kt.value, v)])
          | .perr m p => .perr m p
          | .pfuel => .pfuel
        else pMapLoop ts f pos1 acc
      else pMapLoop ts f ((advanceP ts pos).2) acc
    else .pok acc pos
  termination_by structural f pos acc => f

/-- `Parser._word_def`: `name : body… ॥` (the `DEF_END` may be absent at
end of input). -/
def pWordDef (ts : List Token) : Nat → Nat → PRes AstStmt
  | 0, _ => .pfuel
  | f + 1, pos =>
    let nt := peekAt ts pos
    let pos2 := (advanceP ts ((advanceP ts pos).2)).2
    match pBodyLoop ts .defEnd f pos2 [] with
    | .pok body pos3 =>
      let pos4 := if (peekAt ts pos3).type = .defEnd then (advanceP ts pos3).2 else pos3
      .pok (.wordDef nt.value body) pos4
    | .perr m p => .perr m p
    | .pfuel => .pfuel
  termination_by structural f pos => f

/-- `Parser._var_assign`: `name := expr .?`. -/
def pVarAssign (ts : List Token) : Nat → Nat → PRes AstStmt
  | 0, _ => .pfuel
  | f + 1, pos =>
    let nt := peekAt ts pos
    let pos2 := (advanceP ts ((advanceP ts pos).2)).2
    match pExpression ts f pos2 with
    | .pok v pos3 =>
      let pos4 := if (peekAt ts pos3).type = .dot then (advanceP ts pos3).2 else pos3
      .pok (.varAssign nt.value v) pos4
    | .perr m p => .perr m p
    | .pfuel => .pfuel
  termination_by structural f pos => f

/-- `Parser._expr_stmt`: an expression, trailing postfix action words,
and an optional terminating dot. -/
def pExprStmt (ts : List Token) : Nat → Nat → PRes AstStmt
  | 0, _ => .pfuel
  | f + 1, pos =>
    match pExpression ts f pos with
    | .pok e pos1 =>
      match actionsLoop ts pos1 [] with
      | (actions, pos2) =>
        let ex := if actions.isEmpty then e else .postfixA e actions
        let pos3 := if (peekAt ts pos2).type = .dot then (advanceP ts pos2).2 else pos2
        .pok (.exprStmt ex) pos3
    | .perr m p => .perr m p
    | .pfuel => .pfuel
  termination_by structural f pos => f

/-- `Parser._statement`: dispatch on the two-token prefix. -/
def pStatement (ts : List Token) : Nat → Nat → PRes AstStmt
  | 0, _ => .pfuel
  | f + 1, pos =>
    if (peekAt ts pos).type = .word ∧ (peekAt ts (pos + 1)).type = .colon then
      pWordDef ts f pos
    else if (peekAt ts pos).type = .word ∧ (peekAt ts (pos + 1)).type = .assign then
      pVarAssign ts f pos
    else pExprStmt ts f pos
  termination_by structural f pos => f

/-- The statement loop of `Parser.parse`: collect statements; a raised
`ParseError` is recorded and the parser resynchronises from the raise
position. -/
def parseLoop (ts : List Token) : Nat → Nat → List AstStmt → List String →
    PRes (List AstStmt × List String)
  | 0, _, _, _ => .pfuel
  | f + 1, pos, stmts, errs =>
    if atEnd ts pos then .pok (stmts, errs) pos
    else
      match pStatement ts f pos with
      | .pok st pos' => parseLoop ts f pos' (stmts ++ [st]) errs
      | .perr m p => parseLoop ts f (pSynchronize ts p) stmts (errs ++ [m])
      | .pfuel => .pfuel
  termination_by structural f pos stmts errs => f


end

/-- `Parser.parse` on a token list, with the given fuel: the statements
and the collected parse errors. -/
def parseP (ts : List Token) (f : Nat) : PRes (List AstStmt × List String) :=
  parseLoop ts f 0 [] []

/-! ### Virtual machine: src/vm/vm.py and src/vm/builtins.py

The VM's infix top-level evaluator (`VM._run_toplevel` .. `_parse_map`)
is not embedded; the claims concern the postfix executor
(`_execute_token` / `_run_block` / `execute_quotation`), the built-ins,
and the conditional-execution step of `_parse_ternary` (modelled below
as `ternaryStep`, over an already-evaluated condition value). -/

/-- `Block`: a quoted block of code. -/
structure KBlock where
  tokens : List Token
  params : List String

/-- Runtime values.  Python `int`/`float`/`bool`/`str`/`list`/`dict`
(string-keyed, insertion-ordered)/`Block`. -/
inductive Value
  | intV (n : Int)
  | floatV (q : Rat)
  | boolV (b : Bool)
  | strV (s : String)
  | listV (xs : List Value)
  | mapV (pairs : List (String × Value))
  | blockV (b : KBlock)

/-- VM state: operand stack (head = top), user-word dictionary, variable
environment, and the text written to standard output so far. -/
structure VMState where
  stack : List Value
  words : List (String × KBlock)
  vars : List (String × Value)
  out : String

/-- Result of executing VM code: success, a raised `KapilaError` /
Python exception (message and the state at the raise point), or fuel
exhaustion (Python recursion has no such bound). -/
inductive ExecResult
  | ok (st : VMState)
  | err (msg : String) (st : VMState)
  | fuelOut

/-! Python `dict` as an insertion-ordered association list:
lookup, update (in place, appending fresh keys) and delete. -/

def lookupD {α : Type} : List (String × α) → String → Option α
  | [], _ => none
  | (k, v) :: rest, key => if k = key then some v else lookupD rest key

def setD {α : Type} : List (String × α) → String → α → List (String × α)
  | [], key, v => [(key, v)]
  | (k, w) :: rest, key, v =>
    if k = key then (k, v) :: rest else (k, w) :: setD rest key v

def eraseD {α : Type} : List (String × α) → String → List (String × α)
  | [], _ => []
  | (k, w) :: rest, key => if k = key then rest else (k, w) :: eraseD rest key

/-- Occurrences of a key in an association list. -/
def countKey {α : Type} (d : List (String × α)) (k : String) : Nat :=
  d.countP (fun kv => kv.1 == k)

/-- `VM.push`. -/
def vmPush (v : Value) (st : VMState) : VMState :=
  { st with stack := v :: st.stack }

/-- `VM.pop`: raises `KapilaError("Stack underflow")` on an empty stack,
leaving the state untouched. -/
def popV (st : VMState) : Except (String × VMState) (Value × VMState) :=
  match st.stack with
  | [] => .error ("Stack underflow", st)
  | v :: rest => .ok (v, { st with stack := rest })

/-- Pop two: the first popped (`b` in the Python built-ins) is the top. -/
def popV2 (st : VMState) : Except (String × VMState) (Value × Value × VMState) :=
  match popV st with
  | .error e => .error e
  | .ok (b, st1) =>
    match popV st1 with
    | .error e => .error e
    | .ok (a, st2) => .ok (a, b, st2)

/-- A numeric value as `(is_float, rational value)`; Python `bool` is an
`int` subtype (`True == 1`). -/
def numQ : Value → Option (Bool × Rat)
  | .boolV b => some (false, if b then 1 else 0)
  | .intV n => some (false, (n : Rat))
  | .floatV q => some (true, q)
  | _ => none

/-- A value usable as a Python `int` in arithmetic (int or bool). -/
def intOf : Value → Option Int
  | .boolV b => some (if b then 1 else 0)
  | .intV n => some n
  | _ => none

/-- Python `a + b` on Kapila values: numeric addition (float if either
side is), string and list concatenation; anything else is a `TypeError`. -/
def pyAdd (a b : Value) : Except String Value :=
  match a, b with
  | .strV s, .strV t => .ok (.strV (s ++ t))
  | .listV xs, .listV ys => .ok (.listV (xs ++ ys))
  | _, _ =>
    match intOf a, intOf b with
    | some x, some y => .ok (.intV (x + y))
    | _, _ =>
      match numQ a, numQ b with
      | some (_, qa), some (_, qb) => .ok (.floatV (qa + qb))
      | _, _ => .error "TypeError: unsupported operand type(s) for +"

/-- Python `a - b`: numeric only. -/
def pySub (a b : Value) : Except String Value :=
  match intOf a, intOf b with
  | some x, some y => .ok (.intV (x - y))
  | _, _ =>
    match numQ a, numQ b with
    | some (_, qa), some (_, qb) => .ok (.floatV (qa - qb))
    | _, _ => .error "TypeError: unsupported operand type(s) for -"

/-- Python `a * b`: numeric product, or sequence replication with an
integer count (negative counts give the empty sequence). -/
def pyMul (a b : Value) : Except String Value :=
  match a, b with
  | .strV s, .strV _ => .error "TypeError: unsupported operand type(s) for *"
  | .strV s, other =>
    match intOf other with
    | some n => .ok (.strV (String.join (List.replicate n.toNat s)))
    | none => .error "TypeError: unsupported operand type(s) for *"
  | other, .strV s =>
    match intOf other with
    | some n => .ok (.strV (String.join (List.replicate n.toNat s)))
    | none => .error "TypeError: unsupported operand type(s) for *"
  | .listV xs, other =>
    match intOf other with
    | some n => .ok (.listV (List.replicate n.toNat xs).flatten)
    | none => .error "TypeError: unsupported operand type(s) for *"
  | other, .listV xs =>
    match intOf other with
    | some n => .ok (.listV (List.replicate n.toNat xs).flatten)
    | none => .error "TypeError: unsupported operand type(s) for *"
  | _, _ =>
    match intOf a, intOf b with
    | some x, some y => .ok (.intV (x * y))
    | _, _ =>
      match numQ a, numQ b with
      | some (_, qa), some (_, qb) => .ok (.floatV (qa * qb))
      | _, _ => .error "TypeError: unsupported operand type(s) for *"

/-- Python `a / b`: true division, always a float; division by zero
raises. -/
def pyDiv (a b : Value) : Except String Value :=
  match numQ a, numQ b with
  | some (_, qa), some (_, qb) =>
    if qb = 0 then .error "ZeroDivisionError: division by zero"
    else .ok (.floatV (qa / qb))
  | _, _ => .error "TypeError: unsupported operand type(s) for /"

/-- Floor-modulo on rationals (`a - b * floor(a / b)`), Python's `%` for
floats. -/
def ratFMod (qa qb : Rat) : Rat :=
  qa - qb * ((qa / qb).floor : Rat)

/-- Python `a % b`: floor-modulo (`Int.fmod` has Python's sign
behaviour); modulo by zero raises. -/
def pyMod (a b : Value) : Except String Value :=
  match intOf a, intOf b with
  | some x, some y =>
    if y = 0 then .error "ZeroDivisionError: integer modulo by zero"
    else .ok (.intV (Int.fmod x y))
  | _, _ =>
    match numQ a, numQ b with
    | some (_, qa), some (_, qb) =>
      if qb = 0 then .error "ZeroDivisionError: float modulo"
      else .ok (.floatV (ratFMod qa qb))
    | _, _ => .error "TypeError: unsupported operand type(s) for %"

mutual

/-- Python `a == b`: numeric equality across int/float/bool, structural
equality for strings and lists; `dict` equality is modelled as
insertion-order-sensitive (Python's is order-insensitive; no Kapila
program or claim compares maps); `Block`s compare by object identity in
Python, modelled as never equal (two separately constructed blocks).
Values of different non-numeric kinds are unequal, never an error. -/
def pyEqB : Value → Value → Bool
  | a, b =>
    match numQ a, numQ b with
    | some (_, qa), some (_, qb) => decide (qa = qb)
    | _, _ =>
      match a, b with
      | .strV s, .strV t => s = t
      | .listV xs, .listV ys => pyEqList xs ys
      | .mapV ps, .mapV qs => pyEqPairs ps qs
      | _, _ => false

def pyEqList : List Value → List Value → Bool
  | [], [] => true
  | x :: xs, y :: ys => pyEqB x y && pyEqList xs ys
  | _, _ => false

def pyEqPairs : List (String × Value) → List (String × Value) → Bool
  | [], [] => true
  | (k1, v1) :: ps, (k2, v2) :: qs => k1 = k2 && pyEqB v1 v2 && pyEqPairs ps qs
  | _, _ => false

end

mutual

/-- Python `a < b`: numeric comparison across int/float/bool, code-point
lexicographic for strings, lexicographic for lists; otherwise a
`TypeError`. -/
def pyLtB : Value → Value → Except String Bool
  | a, b =>
    match numQ a, numQ b with
    | some (_, qa), some (_, qb) => .ok (decide (qa < qb))
    | _, _ =>
      match a, b with
      | .strV s, .strV t => .ok (decide (s < t))
      | .listV xs, .listV ys => pyListLt xs ys
      | _, _ => .error "TypeError: '<' not supported between operands"

def pyListLt : List Value → List Value → Except String Bool
  | [], [] => .ok false
  | [], _ :: _ => .ok true
  | _ :: _, [] => .ok false
  | x :: xs, y :: ys =>
    if pyEqB x y then pyListLt xs ys else pyLtB x y

end

mutual

/-- Python `a <= b` (needed because `a <= b` on lists is not `¬(b < a)`
elementwise but shares the lexicographic scheme). -/
def pyLeB : Value → Value → Except String Bool
  | a, b =>
    match numQ a, numQ b with
    | some (_, qa), some (_, qb) => .ok (decide (qa ≤ qb))
    | _, _ =>
      match a, b with
      | .strV s, .strV t => .ok (decide (s ≤ t))
      | .listV xs, .listV ys => pyListLe xs ys
      | _, _ => .error "TypeError: '<=' not supported between operands"

def pyListLe : List Value → List Value → Except String Bool
  | [], _ => .ok true
  | _ :: _, [] => .ok false
  | x :: xs, y :: ys =>
    if pyEqB x y then pyListLe xs ys else pyLtB x y

end

/-- Python truthiness (`bool(v)`): zero, empty and `False` are falsy;
`Block` objects are truthy. -/
def truthy : Value → Bool
  | .intV n => decide (n ≠ 0)
  | .floatV q => decide (q ≠ 0)
  | .boolV b => b
  | .strV s => decide (s ≠ "")
  | .listV xs => !xs.isEmpty
  | .mapV ps => !ps.isEmpty
  | .blockV _ => true

/-- Stand-in for Python `repr` of a float.  Python prints the shortest
round-tripping decimal of the binary double; this model prints the exact
rational.  No claim inspects a printed float. -/
def pyFloatRepr (q : Rat) : String :=
  toString q

mutual

/-- Python `repr` on Kapila values.  String `repr` always uses single
quotes (Python switches to double quotes when the text contains a single
quote but no double quote; not modelled).  `Block.__repr__` is
`Block(<n> tokens)`. -/
def pyRepr : Value → String
  | .intV n => toString n
  | .floatV q => pyFloatRepr q
  | .boolV true => "True"
  | .boolV false => "False"
  | .strV s => "'" ++ s ++ "'"
  | .listV xs => "[" ++ pyReprList xs ++ "]"
  | .mapV ps => "\x7b" ++ pyReprPairs ps ++ "\x7d"
  | .blockV b => "Block(" ++ toString b.tokens.length ++ " tokens)"

def pyReprList : List Value → String
  | [] => ""
  | [x] => pyRepr x
  | x :: xs => pyRepr x ++ ", " ++ pyReprList xs

def pyReprPairs : List (String × Value) → String
  | [] => ""
  | [(k, v)] => "'" ++ k ++ "': " ++ pyRepr v
  | (k, v) :: ps => "'" ++ k ++ "': " ++ pyRepr v ++ ", " ++ pyReprPairs ps

end

/-- Python `str`: the text `print` writes.  For every Kapila value kind
except strings this equals `repr`. -/
def pyStr : Value → String
  | .strV s => s
  | v => pyRepr v

/-- Python `int(v)` as used by `nth` and `times`: ints and bools as-is,
floats truncated toward zero, decimal strings parsed; anything else (and
a non-numeric string) raises. -/
def intOfPy : Value → Except String Int
  | .intV n => .ok n
  | .boolV b => .ok (if b then 1 else 0)
  | .floatV q => .ok (if q ≥ 0 then q.floor else q.ceil)
  | .strV s =>
    match s.toInt? with
    | some n => .ok n
    | none => .error "ValueError: invalid literal for int()"
  | _ => .error "TypeError: int() argument"

/-- Python sequence indexing `seq[i]` with negative-from-the-end
indexing, for lists and strings; string-keyed lookup for maps. -/
def pyIndex (container : Value) (idx : Value) : Except String Value :=
  match container with
  | .listV xs =>
    match intOfPy idx with
    | .error m => .error m
    | .ok i =>
      let j := if i < 0 then i + xs.length else i
      if h : 0 ≤ j ∧ j.toNat < xs.length then .ok (xs.get ⟨j.toNat, h.2⟩)
      else .error "IndexError: list index out of range"
  | .strV s =>
    match intOfPy idx with
    | .error m => .error m
    | .ok i =>
      let cs := s.toList
      let j := if i < 0 then i + cs.length else i
      if h : 0 ≤ j ∧ j.toNat < cs.length then .ok (.strV (String.mk [cs.get ⟨j.toNat, h.2⟩]))
      else .error "IndexError: string index out of range"
  | .mapV ps =>
    match idx with
    | .strV k =>
      match lookupD ps k with
      | some v => .ok v
      | none => .error "KeyError"
    | _ => .error "KeyError"
  | _ => .error "TypeError: object is not subscriptable"

/-- A binary arithmetic built-in / operator token: pop `b` then `a`,
push `op a b`. -/
def binOp (op : Value → Value → Except String Value) (st : VMState) : ExecResult :=
  match popV2 st with
  | .error (m, s) => .err m s
  | .ok (a, b, st2) =>
    match op a b with
    | .ok v => .ok (vmPush v st2)
    | .error m => .err m st2

/-- A comparison built-in / operator token: pop two, push a boolean. -/
def cmpOp (op : Value → Value → Except String Bool) (st : VMState) : ExecResult :=
  match popV2 st with
  | .error (m, s) => .err m s
  | .ok (a, b, st2) =>
    match op a b with
    | .ok r => .ok (vmPush (.boolV r) st2)
    | .error m => .err m st2

/-- `builtin_dup`. -/
def builtinDup (st : VMState) : ExecResult :=
  match popV st with
  | .error (m, s) => .err m s
  | .ok (a, st1) => .ok (vmPush a (vmPush a st1))

/-- `builtin_drop`. -/
def builtinDrop (st : VMState) : ExecResult :=
  match popV st with
  | .error (m, s) => .err m s
  | .ok (_, st1) => .ok st1

/-- `builtin_swap`. -/
def builtinSwap (st : VMState) : ExecResult :=
  match popV2 st with
  | .error (m, s) => .err m s
  | .ok (a, b, st2) => .ok (vmPush a (vmPush b st2))

/-- `builtin_over`. -/
def builtinOver (st : VMState) : ExecResult :=
  match popV2 st with
  | .error (m, s) => .err m s
  | .ok (a, b, st2) => .ok (vmPush a (vmPush b (vmPush a st2)))

/-- `builtin_rot`. -/
def builtinRot (st : VMState) : ExecResult :=
  match popV st with
  | .error (m, s) => .err m s
  | .ok (c, st1) =>
    match popV st1 with
    | .error (m, s) => .err m s
    | .ok (b, st2) =>
      match popV st2 with
      | .error (m, s) => .err m s
      | .ok (a, st3) => .ok (vmPush a (vmPush c (vmPush b st3)))

/-- `builtin_and`: `vm.push(a and b)` — Python truthiness selection, not
a boolean operation; no type check, never a type error. -/
def builtinAnd (st : VMState) : ExecResult :=
  match popV2 st with
  | .error (m, s) => .err m s
  | .ok (a, b, st2) => .ok (vmPush (if truthy a then b else a) st2)

/-- `builtin_or`: `vm.push(a or b)`. -/
def builtinOr (st : VMState) : ExecResult :=
  match popV2 st with
  | .error (m, s) => .err m s
  | .ok (a, b, st2) => .ok (vmPush (if truthy a then a else b) st2)

/-- `builtin_not`: `vm.push(not a)` — always a boolean, any operand. -/
def builtinNot (st : VMState) : ExecResult :=
  match popV st with
  | .error (m, s) => .err m s
  | .ok (a, st1) => .ok (vmPush (.boolV (!truthy a)) st1)

/-- `builtin_print`: pop one value, write its `str()` text and a
newline. -/
def builtinPrint (st : VMState) : ExecResult :=
  match popV st with
  | .error (m, s) => .err m s
  | .ok (a, st1) => .ok { st1 with out := st1.out ++ pyStr a ++ "\n" }

/-- `builtin_show_stack` (`.s`): write the Python repr of the stack list
(bottom first). -/
def builtinShowStack (st : VMState) : ExecResult :=
  .ok { st with out := st.out ++ "Stack: [" ++ pyReprList st.stack.reverse ++ "]\n" }

/-- `builtin_list_length`: Python `len`. -/
def builtinLength (st : VMState) : ExecResult :=
  match popV st with
  | .error (m, s) => .err m s
  | .ok (lst, st1) =>
    match lst with
    | .listV xs => .ok (vmPush (.intV xs.length) st1)
    | .strV s => .ok (vmPush (.intV s.length) st1)
    | .mapV ps => .ok (vmPush (.intV ps.length) st1)
    | _ => .err "TypeError: object has no len()" st1

/-- `builtin_list_get` (`nth`): `lst[int(n)]`. -/
def builtinNth (st : VMState) : ExecResult :=
  match popV2 st with
  | .error (m, s) => .err m s
  | .ok (lst, n, st2) =>
    match pyIndex lst n with
    | .ok v => .ok (vmPush v st2)
    | .error m => .err m st2

/-- `builtin_list_append`: `lst + [item]` (fresh list; `lst` must be a
list or Python raises). -/
def builtinAppend (st : VMState) : ExecResult :=
  match popV2 st with
  | .error (m, s) => .err m s
  | .ok (lst, item, st2) =>
    match lst with
    | .listV xs => .ok (vmPush (.listV (xs ++ [item])) st2)
    | _ => .err "TypeError: can only concatenate list" st2

/-- `builtin_list_first`: `lst[0]`. -/
def builtinFirst (st : VMState) : ExecResult :=
  match popV st with
  | .error (m, s) => .err m s
  | .ok (lst, st1) =>
    match pyIndex lst (.intV 0) with
    | .ok v => .ok (vmPush v st1)
    | .error m => .err m st1

/-- `builtin_list_rest`: `lst[1:]` (lists and strings slice; anything
else raises). -/
def builtinRest (st : VMState) : ExecResult :=
  match popV st with
  | .error (m, s) => .err m s
  | .ok (lst, st1) =>
    match lst with
    | .listV xs => .ok (vmPush (.listV (xs.drop 1)) st1)
    | .strV s => .ok (vmPush (.strV (String.mk (s.toList.drop 1))) st1)
    | _ => .err "TypeError: object is not subscriptable" st1

/-- `builtin_str_concat` (`,`): `str(a) + str(b)`. -/
def builtinConcat (st : VMState) : ExecResult :=
  match popV2 st with
  | .error (m, s) => .err m s
  | .ok (a, b, st2) => .ok (vmPush (.strV (pyStr a ++ pyStr b)) st2)

/-- `builtin_true` / `builtin_false`. -/
def builtinTrue (st : VMState) : ExecResult :=
  .ok (vmPush (.boolV true) st)

def builtinFalse (st : VMState) : ExecResult :=
  .ok (vmPush (.boolV false) st)

/-- The built-in words the VM interprets, named by the `Builtin` they
dispatch to (`_CORE_BUILTINS` plus the Kannada aliases added from
`vocabulary.py`; aliases whose English target is not a built-in —
`read`, `write`, `last` — are skipped, as `_build_builtins` does). -/
inductive Builtin
  | addB | subB | mulB | divB | modB
  | eqB | neqB | ltB | gtB | lteB | gteB
  | dupB | dropB | swapB | overB | rotB
  | printB | showStackB
  | andB | orB | notB
  | trueB | falseB
  | lengthB | nthB | appendB | firstB | restB
  | concatB
  | mapB | filterB | foldB | eachB | timesB | doB
deriving DecidableEq, Repr

/-- `BUILTINS`: the registry built by `_build_builtins()`. -/
def lookupBuiltin (name : String) : Option Builtin :=
  if name = "+" then some .addB
  else if name = "-" then some .subB
  else if name = "*" then some .mulB
  else if name = "/" then some .divB
  else if name = "%" then some .modB
  else if name = "=" then some .eqB
  else if name = "!=" then some .neqB
  else if name = "≠" then some .neqB
  else if name = "<" then some .ltB
  else if name = ">" then some .gtB
  else if name = "<=" then some .lteB
  else if name = "≤" then some .lteB
  else if name = ">=" then some .gteB
  else if name = "≥" then some .gteB
  else if name = "dup" then some .dupB
  else if name = "drop" then some .dropB
  else if name = "swap" then some .swapB
  else if name = "over" then some .overB
  else if name = "rot" then some .rotB
  else if name = "print" then some .printB
  else if name = ".s" then some .showStackB
  else if name = "and" then some .andB
  else if name = "or" then some .orB
  else if name = "not" then some .notB
  else if name = "true" then some .trueB
  else if name = "false" then some .falseB
  else if name = "length" then some .lengthB
  else if name = "nth" then some .nthB
  else if name = "append" then some .appendB
  else if name = "first" then some .firstB
  else if name = "rest" then some .restB
  else if name = "," then some .concatB
  else if name = "map" then some .mapB
  else if name = "filter" then some .filterB
  else if name = "fold" then some .foldB
  else if name = "each" then some .eachB
  else if name = "times" then some .timesB
  else if name = "do" then some .doB
  else if name = "ಕೂಡು" ∨ name = "ಕೂಡಿಸು" then some .addB
  else if name = "ಕಳೆ" ∨ name = "ಕಳೆಯಿರಿ" then some .subB
  else if name = "ಗುಣಿಸು" ∨ name = "ಗುಣಾಕಾರ" then some .mulB
  else if name = "ಭಾಗಿಸು" ∨ name = "ಭಾಗಾಕಾರ" then some .divB
  else if name = "ಶೇಷ" then some .modB
  else if name = "ಸಮ" then some .eqB
  else if name = "ಸಮನಲ್ಲ" then some .neqB
  else if name = "ಕಿರಿದು" then some .ltB
  else if name = "ಹಿರಿದು" then some .gtB
  else if name = "ಕಿರಿದುಸಮ" then some .lteB
  else if name = "ಹಿರಿದುಸಮ" then some .gteB
  else if name = "ಸರಿ" then some .trueB
  else if name = "ತಪ್ಪು" ∨ name = "ಬೇಸ" then some .falseB
  else if name = "ಮತ್ತು" then some .andB
  else if name = "ಅಥವಾ" then some .orB
  else if name = "ಅಲ್ಲ" then some .notB
  else if name = "ನಕಲು" then some .dupB
  else if name = "ಬಿಡು" then some .dropB
  else if name = "ಅದಲುಬದಲು" then some .swapB
  else if name = "ಮೇಲೆ" then some .overB
  else if name = "ತಿರುಗಿಸು" then some .rotB
  else if name = "ಮುದ್ರಿಸು" then some .printB
  else if name = "ಉದ್ದ" then some .lengthB
  else if name = "ತೆಗೆ" then some .nthB
  else if name = "ಸೇರಿಸು" then some .appendB
  else if name = "ಮೊದಲ" then some .firstB
  else if name = "ಉಳಿದ" then some .restB
  else if name = "ಜೋಡಿಸು" then some .concatB
  else if name = "ನಕ್ಷೆ" then some .mapB
  else if name = "ಸೋಸು" then some .filterB
  else if name = "ಮಡಿಸು" then some .foldB
  else if name = "ಪ್ರತಿಯೊಂದಕ್ಕೂ" then some .eachB
  else if name = "ಸಾರಿ" then some .timesB
  else if name = "ಮಾಡು" ∨ name = "ಕರೆ" then some .doB
  else none

/-- The literal of a Number/String token as a runtime value. -/
def valueOfLit : Lit → Value
  | .intL n => .intV n
  | .floatL q => .floatV q
  | .strL s => .strV s

/-- Binding record for block parameters: each parameter's previous
binding (`variables.get(param)`), in `saved_vars` insertion order. -/
def SavedVars := List (String × Option Value)

/-- The outcome of parameter binding. -/
inductive BindRes
  | okB (saved : List (String × Option Value)) (st : VMState)
  | errB (msg : String) (st : VMState)

/-- The parameter-binding loop of `VM._run_block`, over the REVERSED
parameter list: record the old binding in `saved_vars`
(dict-update semantics), then pop into the variable.  A pop on an
exhausted stack raises out of the loop with the bindings made so far in
place. -/
def bindLoop : List String → List (String × Option Value) → VMState → BindRes
  | [], saved, st => .okB saved st
  | p :: ps, saved, st =>
    let saved' := setD saved p (lookupD st.vars p)
    match st.stack with
    | [] => .errB "Stack underflow" st
    | v :: rest => bindLoop ps saved' { st with stack := rest, vars := setD st.vars p v }

/-- The restore loop of `VM._run_block`: `None` means the parameter had
no previous binding and is deleted; otherwise the old value is put
back. -/
def restoreVars : List (String × Option Value) → VMState → VMState
  | [], st => st
  | (p, none) :: rest, st => restoreVars rest { st with vars := eraseD st.vars p }
  | (p, some v) :: rest, st => restoreVars rest { st with vars := setD st.vars p v }

mutual

/-- `VM._run_block` / `VM.execute_quotation`: a string quotation executes
the named word; a `Block` binds its parameters, executes its tokens in
postfix mode, and restores shadowed bindings (restoration is skipped
when execution raises, as the Python `finally`-less code does); any
other value crashes on attribute access. -/
def runQuot (v : Value) : Nat → VMState → ExecResult
  | 0, _ => .fuelOut
  | f + 1, st =>
    match v with
    | .strV name => executeWord name f st
    | .blockV b =>
      match bindLoop b.params.reverse [] st with
      | .errB m st1 => .err m st1
      | .okB saved st1 =>
        match execTokens b.tokens f st1 with
        | .ok st2 => .ok (restoreVars saved st2)
        | .err m st2 => .err m st2
        | .fuelOut => .fuelOut
    | _ => .err "AttributeError: object has no attribute 'params'" st
  termination_by f _ => (f, 0, 0)

/-- The loop of `builtin_map`: push the item, run the quotation, pop the
result. -/
def mapLoop (quot : Value) : List Value → List Value → Nat → VMState → ExecResult
  | [], acc, _, st => .ok (vmPush (.listV acc) st)
  | v :: rest, acc, f, st =>
    match runQuot quot f (vmPush v st) with
    | .ok st1 =>
      match popV st1 with
      | .error (m, s) => .err m s
      | .ok (w, st2) => mapLoop quot rest (acc ++ [w]) f st2
    | .err m s => .err m s
    | .fuelOut => .fuelOut
  termination_by items _ f _ => (f, 1, items.length)

/-- The loop of `builtin_filter`: keep the item when the quotation's
popped result is truthy. -/
def filterLoop (quot : Value) : List Value → List Value → Nat → VMState → ExecResult
  | [], acc, _, st => .ok (vmPush (.listV acc) st)
  | v :: rest, acc, f, st =>
    match runQuot quot f (vmPush v st) with
    | .ok st1 =>
      match popV st1 with
      | .error (m, s) => .err m s
      | .ok (w, st2) =>
        filterLoop quot rest (if truthy w then acc ++ [v] else acc) f st2
    | .err m s => .err m s
    | .fuelOut => .fuelOut
  termination_by items _ f _ => (f, 1, items.length)

/-- The loop of `builtin_fold`: push accumulator then item, run, pop the
new accumulator. -/
def foldLoop (quot : Value) : List Value → Value → Nat → VMState → ExecResult
  | [], acc, _, st => .ok (vmPush acc st)
  | v :: rest, acc, f, st =>
    match runQuot quot f (vmPush v (vmPush acc st)) with
    | .ok st1 =>
      match popV st1 with
      | .error (m, s) => .err m s
      | .ok (w, st2) => foldLoop quot rest w f st2
    | .err m s => .err m s
    | .fuelOut => .fuelOut
  termination_by items _ f _ => (f, 1, items.length)

/-- The loop of `builtin_each`. -/
def eachLoop (quot : Value) : List Value → Nat → VMState → ExecResult
  | [], _, st => .ok st
  | v :: rest, f, st =>
    match runQuot quot f (vmPush v st) with
    | .ok st1 => eachLoop quot rest f st1
    | .err m s => .err m s
    | .fuelOut => .fuelOut
  termination_by items f _ => (f, 1, items.length)

/-- The loop of `builtin_times`: push the index, run, discard one
value. -/
def timesLoop (quot : Value) : List Nat → Nat → VMState → ExecResult
  | [], _, st => .ok st
  | i :: rest, f, st =>
    match runQuot quot f (vmPush (.intV i) st) with
    | .ok st1 =>
      match popV st1 with
      | .error (m, s) => .err m s
      | .ok (_, st2) => timesLoop quot rest f st2
    | .err m s => .err m s
    | .fuelOut => .fuelOut
  termination_by idxs f _ => (f, 1, idxs.length)

/-- Dispatch one built-in (`self.builtins[name](self)`).  The iterables
accepted by the higher-order built-ins follow Python's `for`: lists,
strings (characters) and maps (keys). -/
def runBuiltin (b : Builtin) : Nat → VMState → ExecResult
  | f, st =>
    match b with
    | .addB => binOp pyAdd st
    | .subB => binOp pySub st
    | .mulB => binOp pyMul st
    | .divB => binOp pyDiv st
    | .modB => binOp pyMod st
    | .eqB => cmpOp (fun a b => .ok (pyEqB a b)) st
    | .neqB => cmpOp (fun a b => .ok (!pyEqB a b)) st
    | .ltB => cmpOp pyLtB st
    | .gtB => cmpOp (fun a b => pyLtB b a) st
    | .lteB => cmpOp pyLeB st
    | .gteB => cmpOp (fun a b => pyLeB b a) st
    | .dupB => builtinDup st
    | .dropB => builtinDrop st
    | .swapB => builtinSwap st
    | .overB => builtinOver st
    | .rotB => builtinRot st
    | .printB => builtinPrint st
    | .showStackB => builtinShowStack st
    | .andB => builtinAnd st
    | .orB => builtinOr st
    | .notB => builtinNot st
    | .trueB => builtinTrue st
    | .falseB => builtinFalse st
    | .lengthB => builtinLength st
    | .nthB => builtinNth st
    | .appendB => builtinAppend st
    | .firstB => builtinFirst st
    | .restB => builtinRest st
    | .concatB => builtinConcat st
    | .mapB =>
      match popV2 st with
      | .error (m, s) => .err m s
      | .ok (lst, quot, st2) =>
        match lst with
        | .listV xs => mapLoop quot xs [] f st2
        | .strV s => mapLoop quot (s.toList.map (fun c => .strV (String.mk [c]))) [] f st2
        | .mapV ps => mapLoop quot (ps.map (fun kv => .strV kv.1)) [] f st2
        | _ => .err "TypeError: object is not iterable" st2
    | .filterB =>
      match popV2 st with
      | .error (m, s) => .err m s
      | .ok (lst, quot, st2) =>
        match lst with
        | .listV xs => filterLoop quot xs [] f st2
        | .strV s => filterLoop quot (s.toList.map (fun c => .strV (String.mk [c]))) [] f st2
        | .mapV ps => filterLoop quot (ps.map (fun kv => .strV kv.1)) [] f st2
        | _ => .err "TypeError: object is not iterable" st2
    | .foldB =>
      match popV st with
      | .error (m, s) => .err m s
      | .ok (quot, st1) =>
        match popV st1 with
        | .error (m, s) => .err m s
        | .ok (acc, st2) =>
          match popV st2 with
          | .error (m, s) => .err m s
          | .ok (lst, st3) =>
            match lst with
            | .listV xs => foldLoop quot xs acc f st3
            | .strV s => foldLoop quot (s.toList.map (fun c => .strV (String.mk [c]))) acc f st3
            | .mapV ps => foldLoop quot (ps.map (fun kv => .strV kv.1)) acc f st3
            | _ => .err "TypeError: object is not iterable" st3
    | .eachB =>
      match popV2 st with
      | .error (m, s) => .err m s
      | .ok (lst, quot, st2) =>
        match lst with
        | .listV xs => eachLoop quot xs f st2
        | .strV s => eachLoop quot (s.toList.map (fun c => .strV (String.mk [c]))) f st2
        | .mapV ps => eachLoop quot (ps.map (fun kv => .strV kv.1)) f st2
        | _ => .err "TypeError: object is not iterable" st2
    | .timesB =>
      match popV st with
      | .error (m, s) => .err m s
      | .ok (quot, st1) =>
        match popV st1 with
        | .error (m, s) => .err m s
        | .ok (n, st2) =>
          match intOfPy n with
          | .error m => .err m st2
          | .ok k => timesLoop quot (List.range k.toNat) f st2
    | .doB =>
      match popV st with
      | .error (m, s) => .err m s
      | .ok (quot, st1) => runQuot quot f st1
  termination_by f _ => (f, 2, 0)

/-- `VM._execute_word`: built-in, then user word, then variable. -/
def executeWord (name : String) : Nat → VMState → ExecResult
  | f, st =>
    match lookupBuiltin name with
    | some b => runBuiltin b f st
    | none =>
      match lookupD st.words name with
      | some blk => runQuot (.blockV blk) f st
      | none =>
        match lookupD st.vars name with
        | some v => .ok (vmPush v st)
        | none => .err ("Unknown word: " ++ name) st
  termination_by f _ => (f, 3, 0)

/-- `VM._execute_token`: one token in postfix mode.  Word lookup order:
the four boolean keywords, variables, built-ins, user words, unknown.
Operator tokens pop two and apply; token kinds with no branch (brackets,
dots, …) are silently ignored. -/
def execToken (t : Token) : Nat → VMState → ExecResult
  | f, st =>
    match t.type with
    | .number =>
      match t.literal with
      | some l => .ok (vmPush (valueOfLit l) st)
      | none => .err "internal: Number token without literal" st
    | .string =>
      match t.literal with
      | some l => .ok (vmPush (valueOfLit l) st)
      | none => .err "internal: String token without literal" st
    | .word =>
      let name := t.value
      if name = "ನಿಜ" ∨ name = "true" then .ok (vmPush (.boolV true) st)
      else if name = "ಸುಳ್ಳು" ∨ name = "false" then .ok (vmPush (.boolV false) st)
      else
        match lookupD st.vars name with
        | some v => .ok (vmPush v st)
        | none =>
          match lookupBuiltin name with
          | some b => runBuiltin b f st
          | none =>
            match lookupD st.words name with
            | some blk => runQuot (.blockV blk) f st
            | none => .err ("Unknown word: " ++ name) st
    | .plus => binOp pyAdd st
    | .minus => binOp pySub st
    | .star => binOp pyMul st
    | .slash => binOp pyDiv st
    | .percent => binOp pyMod st
    | .eq => cmpOp (fun a b => .ok (pyEqB a b)) st
    | .lt => cmpOp pyLtB st
    | .gt => cmpOp (fun a b => pyLtB b a) st
    | .lte => cmpOp pyLeB st
    | .gte => cmpOp (fun a b => pyLeB b a) st
    | .neq => cmpOp (fun a b => .ok (!pyEqB a b)) st
    | _ => .ok st
  termination_by f _ => (f, 4, 0)

/-- The token loop of `VM._run_block`. -/
def execTokens : List Token → Nat → VMState → ExecResult
  | [], _, st => .ok st
  | t :: rest, f, st =>
    match execToken t f st with
    | .ok st1 => execTokens rest f st1
    | .err m s => .err m s
    | .fuelOut => .fuelOut
  termination_by toks f _ => (f, 5, toks.length)

end

/-- The conditional-execution step of `VM._parse_ternary` (vm.py lines
188–192), over the already-evaluated condition value: `if expr:` tests
Python truthiness of ANY value — there is no boolean type check — and
the chosen branch block (if present) runs in block mode. -/
def ternaryStep (cond : Value) (tb : KBlock) (fb : Option KBlock) (f : Nat) (st : VMState) :
    ExecResult :=
  if truthy cond then runQuot (.blockV tb) f st
  else
    match fb with
    | some b => runQuot (.blockV b) f st
    | none => .ok st

/-- A second definition following the spec's words, for comparison with
the code's scan: the claim's classification predicate considers only
Words, Pipes and operator tokens "at depth 1", i.e. not inside any
nested bracket pair. -/
def specDepth1Tokens : List Token → Nat → List Token
  | [], _ => []
  | t :: rest, depth =>
    if t.type = .eof then []
    else if t.type = .lbracket then specDepth1Tokens rest (depth + 1)
    else if t.type = .rbracket then
      if depth = 1 then [] else specDepth1Tokens rest (depth - 1)
    else if depth = 1 then t :: specDepth1Tokens rest depth
    else specDepth1Tokens rest depth

/-- The classification the claim describes: a trigger token at depth 1. -/
def specIsBlock (toks : List Token) : Bool :=
  (specDepth1Tokens toks 1).any isTrigger

/-- The token sequence of the source `[ ೧ . ]`: a bracketed span that the
scan classifies as a List (no trigger token), containing a Dot. -/
def c10toks : List Token :=
  [mkTok .lbracket "[", mkTok .number "೧" (some (.intL 1)), mkTok .dot ".",
   mkTok .rbracket "]", mkTok .eof ""]

/-! ### Claim theorems -/

/-! #### C1: `normalize_number` -/

theorem normalizeNumberAux_digits (l : List Char) :
    ∀ acc, (∀ c ∈ l, (digitVal10 c).isSome) →
      normalizeNumberAux l acc =
        some (l.foldl (fun a c => a * 10 + (digitVal10 c).getD 0) acc) := by
  induction l with
  | nil => intro acc _; simp [normalizeNumberAux]
  | cons c cs ih =>
    intro acc h
    have hc : (digitVal10 c).isSome := h c (by simp)
    obtain ⟨v, hv⟩ := Option.isSome_iff_exists.mp hc
    simp only [normalizeNumberAux, hv, List.foldl_cons]
    rw [ih (acc * 10 + v) (fun d hd => h d (by simp [hd]))]
    simp [hv]

theorem normalizeNumberAux_dot (l : List Char) :
    ∀ acc, '.' ∈ l → normalizeNumberAux l acc = none := by
  induction l with
  | nil => intro acc h; simp at h
  | cons c cs ih =>
    intro acc h
    rcases List.mem_cons.mp h with h1 | h1
    · subst h1
      simp [normalizeNumberAux, digitVal10, kannada_digit_value]
    · simp only [normalizeNumberAux]
      cases hdv : digitVal10 c with
      | none => rfl
      | some v => exact ih _ h1

/-- C1 counterexample: the claim says `normalize_number("೩.೧೪") ≈ 3.14`,
but the source has no decimal-separator handling: the `.` character falls
through both digit branches into `return None`, so the call yields no
numeric value at all. -/
theorem c1_counterexample : normalize_number "೩.೧೪" = none := by decide

/-- C1 (amended): `normalize_number` maps a non-empty string of digits —
Kannada, ASCII, or mixed — to its base-10 integer value (so
`normalize_number("೧೨೩") = 123` and `normalize_number("೧2೩") = 123`), and
returns `None` on any string containing a character that is not a digit;
in particular a `.` is NOT treated as a decimal separator:
`normalize_number("೩.೧೪") = None`, never a float. -/
theorem c1_normalize_number_digits_only :
    (∀ l : List Char, l ≠ [] → (∀ c ∈ l, (digitVal10 c).isSome) →
        normalize_number (String.mk l) =
          some (l.foldl (fun a c => a * 10 + (digitVal10 c).getD 0) 0))
    ∧ normalize_number "೧೨೩" = some 123
    ∧ normalize_number "೧2೩" = some 123
    ∧ (∀ l : List Char, '.' ∈ l → normalize_number (String.mk l) = none) := by
  refine ⟨?_, by decide, by decide, ?_⟩
  · intro l hne h
    have hlen : (String.mk l).isEmpty = false := by
      rw [Bool.eq_false_iff]
      intro hem
      exact hne (congrArg String.data ((String.isEmpty_iff _).mp hem))
    simp only [normalize_number, hlen, Bool.false_eq_true, if_false]
    exact normalizeNumberAux_digits l 0 h
  · intro l hmem
    have hne : l ≠ [] := by rintro rfl; simp at hmem
    have hlen : (String.mk l).isEmpty = false := by
      rw [Bool.eq_false_iff]
      intro hem
      exact hne (congrArg String.data ((String.isEmpty_iff _).mp hem))
    simp only [normalize_number, hlen, Bool.false_eq_true, if_false]
    exact normalizeNumberAux_dot l 0 hmem

/-- C1 witness: the amended theorem evaluated on the concrete mixed-digit
string `"೧2"`. -/
theorem c1_witness : normalize_number (String.mk ['೧', '2']) = some 12 := by
  have h := c1_normalize_number_digits_only.1 ['೧', '2'] (by decide) (by decide)
  rw [h]; decide

/-! #### C5: `CGenerator._mangle_name` -/

theorem mangle_keep_chars (l : List Char) (h : ∀ c ∈ l, pyIsAlnum c || c = '_') :
    l.flatMap mangleChar = l := by
  induction l with
  | nil => rfl
  | cons c cs ih =>
    have hc := h c (by simp)
    simp only [List.flatMap_cons, mangleChar, hc, if_true]
    rw [ih (fun d hd => h d (by simp [hd]))]
    rfl

/-- C5 counterexample: the claim says the mangling keeps ASCII as-is and
replaces each non-ASCII codepoint by `_<hex>_`, which would make distinct
names collision-free.  In the source the keep-test is Python `isalnum`,
which keeps the non-ASCII letter `ಕ` as-is, while the ASCII character `-`
is hex-escaped to `_2d_` — so the distinct names `a-b` and `a_2d_b`
(both legal word names: `-` and `_` are word characters) mangle to the
same C identifier. -/
theorem c5_counterexample :
    mangle_name "ಕ" = "word_ಕ"
    ∧ mangle_name "a-b" = "word_a_2d_b"
    ∧ mangle_name "a_2d_b" = "word_a_2d_b"
    ∧ ("a-b" : String) ≠ "a_2d_b" := by
  refine ⟨by decide, by decide, by decide, by decide⟩

/-- C5 (amended): the mangling is deterministic and always prefixes
`word_`; it keeps exactly the alphanumeric (Python `isalnum`, so Kannada
letters and digits included) and underscore codepoints as-is and replaces
every other codepoint — ASCII ones such as `-` included — by `_<hex>_`.
On names made only of kept codepoints it is injective, but it is NOT
collision-free in general: `a-b` and `a_2d_b` collide. -/
theorem c5_mangle_name_shape :
    (∀ name : String, ∃ suffix : String, mangle_name name = "word_" ++ suffix)
    ∧ (∀ l : List Char, (∀ c ∈ l, pyIsAlnum c || c = '_') →
        mangle_name (String.mk l) = "word_" ++ String.mk l)
    ∧ (∀ l1 l2 : List Char,
        (∀ c ∈ l1, pyIsAlnum c || c = '_') → (∀ c ∈ l2, pyIsAlnum c || c = '_') →
        mangle_name (String.mk l1) = mangle_name (String.mk l2) → l1 = l2) := by
  refine ⟨fun name => ⟨String.mk (name.toList.flatMap mangleChar), rfl⟩, ?_, ?_⟩
  · intro l h
    simp only [mangle_name]
    rw [show (String.mk l).toList = l from rfl, mangle_keep_chars l h]
  · intro l1 l2 h1 h2 heq
    simp only [mangle_name] at heq
    rw [show (String.mk l1).toList = l1 from rfl, mangle_keep_chars l1 h1] at heq
    rw [show (String.mk l2).toList = l2 from rfl, mangle_keep_chars l2 h2] at heq
    have : ("word_" ++ String.mk l1).data = ("word_" ++ String.mk l2).data := by rw [heq]
    simpa [String.data_append] using this

/-- C5 witness: the amended theorem's kept-characters clause evaluated on
the concrete name `ab_3`. -/
theorem c5_witness : mangle_name (String.mk ['a', 'b', '_', '3']) = "word_" ++ String.mk ['a', 'b', '_', '3'] :=
  c5_mangle_name_shape.2.1 ['a', 'b', '_', '3'] (by decide)

/-! #### C4: bracket disambiguation -/

/-- C4 counterexample: on the bracket span `[ [ dup ] ]` — whose outer
pair contains a Word only at depth 2 — the claim's depth-1 rule says
List, but the code's scan checks tokens at EVERY depth and classifies
Block (and the parser indeed produces a nested Block expression). -/
theorem c4_counterexample :
    (classifyScan [mkTok .lbracket "[", mkTok .word "dup", mkTok .rbracket "]",
        mkTok .rbracket "]", mkTok .eof ""] 1 false = true)
    ∧ (specIsBlock [mkTok .lbracket "[", mkTok .word "dup", mkTok .rbracket "]",
        mkTok .rbracket "]", mkTok .eof ""] = false)
    ∧ (pExpression [mkTok .lbracket "[", mkTok .lbracket "[", mkTok .word "dup",
        mkTok .rbracket "]", mkTok .rbracket "]", mkTok .eof ""] 50 0 =
      .pok (.blockE [] [.blockE [] [.wordE "dup"]]) 5) := by
  refine ⟨by decide, by decide, by with_unfolding_all rfl⟩

/-- C4 (amended): the parser classifies a bracketed span as a Block
exactly when a Word other than the boolean keywords, a Pipe, or an
operator token occurs anywhere strictly between the brackets — at ANY
bracket depth, not only depth 1 (the scan does not restrict its trigger
test to depth 1); otherwise it is a List literal.  In particular
`[ ೧ ೨ ೩ ]` parses to a ListLit of 3 items, `[ dup * ]` to a Block, and
`[ ೧ + ]` to a Block. -/
theorem c4_block_or_list_classification :
    (∀ (toks : List Token) (depth : Nat) (acc : Bool),
        classifyScan toks depth acc = (acc || (insideSpan toks depth).any isTrigger))
    ∧ (pExpression [mkTok .lbracket "[", mkTok .number "೧" (some (.intL 1)),
        mkTok .number "೨" (some (.intL 2)), mkTok .number "೩" (some (.intL 3)),
        mkTok .rbracket "]", mkTok .eof ""] 50 0 =
      .pok (.listLit [.numberLit (some (.intL 1)), .numberLit (some (.intL 2)),
        .numberLit (some (.intL 3))]) 5)
    ∧ (pExpression [mkTok .lbracket "[", mkTok .word "dup", mkTok .star "*",
        mkTok .rbracket "]", mkTok .eof ""] 50 0 =
      .pok (.blockE [] [.wordE "dup", .wordE "*"]) 4)
    ∧ (pExpression [mkTok .lbracket "[", mkTok .number "೧" (some (.intL 1)),
        mkTok .plus "+", mkTok .rbracket "]", mkTok .eof ""] 50 0 =
      .pok (.blockE [] [.numberLit (some (.intL 1)), .wordE "+"]) 4) := by
  refine ⟨?_, by with_unfolding_all rfl, by with_unfolding_all rfl, by with_unfolding_all rfl⟩
  intro toks
  induction toks with
  | nil => intro depth acc; simp [classifyScan, insideSpan]
  | cons t rest ih =>
    intro depth acc
    by_cases heof : t.type = .eof
    · simp [classifyScan, insideSpan, heof]
    · by_cases hlb : t.type = .lbracket
      · simp [classifyScan, insideSpan, heof, hlb, ih, isTrigger, isOpTT]
      · by_cases hrb : t.type = .rbracket
        · by_cases hd : depth = 1
          · simp [classifyScan, insideSpan, heof, hlb, hrb, hd]
          · simp [classifyScan, insideSpan, heof, hlb, hrb, hd, ih, isTrigger, isOpTT]
        · by_cases hw : t.type = .word
          · by_cases hb : t.value ∈ boolWords
            · simp [classifyScan, insideSpan, heof, hlb, hrb, hw, hb, ih, isTrigger, isOpTT]
            · simp [classifyScan, insideSpan, heof, hlb, hrb, hw, hb, ih, isTrigger]
          · by_cases hp : t.type = .pipe
            · simp [classifyScan, insideSpan, heof, hlb, hrb, hw, hp, ih, isTrigger]
            · by_cases hop : isOpTT t.type
              · simp [classifyScan, insideSpan, heof, hlb, hrb, hw, hp, hop, ih, isTrigger]
              · simp [classifyScan, insideSpan, heof, hlb, hrb, hw, hp, hop, ih, isTrigger]

/-! #### C7: stack underflow -/

/-- C7: popping from an empty operand stack raises
`KapilaError("Stack underflow")` before any mutation, so the error
carries the unchanged (still empty) state; in particular the built-in
`drop` — looked up through the registry exactly as `VM._execute_word`
does — fails the same way with the stack left empty.  (The spec's
"RuntimeError" is its name for the VM's runtime-error condition, which
the source realises as the `KapilaError` exception.) -/
theorem c7_pop_underflow :
    (∀ st : VMState, st.stack = [] → popV st = .error ("Stack underflow", st))
    ∧ (∀ (st : VMState) (f : Nat), st.stack = [] →
        executeWord "drop" f st = .err "Stack underflow" st) := by
  constructor
  · intro st h
    simp [popV, h]
  · intro st f h
    simp [executeWord, lookupBuiltin, runBuiltin, builtinDrop, popV, h]

/-- C7 witness: the underflow behaviour at the concrete empty-stack
state. -/
theorem c7_witness :
    executeWord "drop" 3 ⟨[], [], [], ""⟩ = .err "Stack underflow" ⟨[], [], [], ""⟩ :=
  c7_pop_underflow.2 ⟨[], [], [], ""⟩ 3 rfl

/-! #### C2: boolean operators and the ternary condition -/

/-- C2 counterexample: the claim says a non-boolean operand of a boolean
operator raises a runtime error.  Executing the `and` built-in (through
the word-dispatch path) on the two integers 1 and 2 succeeds and pushes
the integer 2 — Python's truthiness-selecting `a and b` — and a
non-boolean ternary condition (the integer 5) is likewise accepted,
running the then-branch. -/
theorem c2_counterexample :
    (executeWord "and" 0 ⟨[.intV 2, .intV 1], [], [], ""⟩ = .ok ⟨[.intV 2], [], [], ""⟩)
    ∧ (ternaryStep (.intV 5) ⟨[], []⟩ none 1 ⟨[], [], [], ""⟩ = .ok ⟨[], [], [], ""⟩) := by
  constructor
  · simp [executeWord, lookupBuiltin, runBuiltin, builtinAnd, popV2, popV, vmPush, truthy]
  · simp [ternaryStep, truthy, runQuot, bindLoop, execTokens, restoreVars]

/-- C2 (amended): the VM performs no boolean type check.  The
`and`/`or`/`not` built-ins accept operands of every type and never raise:
`and` pushes its second operand when the first is truthy and otherwise
the first, `or` dually, and `not` pushes the boolean negation of its
operand's truthiness.  The ternary conditional tests Python truthiness of
ANY condition value: a truthy condition of any type runs the then-block
and a falsy one runs the else-block (or nothing), without error. -/
theorem c2_no_boolean_type_check :
    (∀ (a b : Value) (S : List Value) (w : List (String × KBlock))
        (v : List (String × Value)) (o : String) (f : Nat),
        executeWord "and" f ⟨b :: a :: S, w, v, o⟩ =
          .ok ⟨(if truthy a then b else a) :: S, w, v, o⟩)
    ∧ (∀ (a b : Value) (S : List Value) (w : List (String × KBlock))
        (v : List (String × Value)) (o : String) (f : Nat),
        executeWord "or" f ⟨b :: a :: S, w, v, o⟩ =
          .ok ⟨(if truthy a then a else b) :: S, w, v, o⟩)
    ∧ (∀ (a : Value) (S : List Value) (w : List (String × KBlock))
        (v : List (String × Value)) (o : String) (f : Nat),
        executeWord "not" f ⟨a :: S, w, v, o⟩ = .ok ⟨.boolV (!truthy a) :: S, w, v, o⟩)
    ∧ (∀ (cond : Value) (tb : KBlock) (fb : Option KBlock) (f : Nat) (st : VMState),
        truthy cond = true → ternaryStep cond tb fb f st = runQuot (.blockV tb) f st)
    ∧ (∀ (cond : Value) (tb : KBlock) (f : Nat) (st : VMState),
        truthy cond = false → ternaryStep cond tb none f st = .ok st) := by
  refine ⟨?_, ?_, ?_, ?_, ?_⟩
  · intro a b S w v o f
    simp [executeWord, lookupBuiltin, runBuiltin, builtinAnd, popV2, popV, vmPush]
  · intro a b S w v o f
    simp [executeWord, lookupBuiltin, runBuiltin, builtinOr, popV2, popV, vmPush]
  · intro a S w v o f
    simp [executeWord, lookupBuiltin, runBuiltin, builtinNot, popV, vmPush]
  · intro cond tb fb f st h
    simp [ternaryStep, h]
  · intro cond tb f st h
    simp [ternaryStep, h]

/-- C2 witness: the amended theorem evaluated at a truthy non-boolean
condition (a nonempty string) and at concrete integer operands. -/
theorem c2_witness :
    truthy (.strV "x") = true
    ∧ ternaryStep (.strV "x") ⟨[], []⟩ none 2 ⟨[], [], [], ""⟩ =
        runQuot (.blockV ⟨[], []⟩) 2 ⟨[], [], [], ""⟩
    ∧ executeWord "and" 0 ⟨.intV 2 :: .intV 1 :: [], [], [], ""⟩ =
        .ok ⟨(if truthy (.intV 1) then .intV 2 else .intV 1) :: [], [], [], ""⟩ :=
  ⟨by simp [truthy],
   c2_no_boolean_type_check.2.2.2.1 (.strV "x") ⟨[], []⟩ none 2 ⟨[], [], [], ""⟩
     (by simp [truthy]),
   c2_no_boolean_type_check.1 (.intV 1) (.intV 2) [] [] [] "" 0⟩

/-! #### C3: the `print` built-in -/

/-- C3 counterexample: the claim says the VM's `print` writes boolean
true as `ಸರಿ`.  The source is `print(a)` — Python's `str()` rendering —
so boolean true prints as `True`. -/
theorem c3_counterexample :
    executeWord "print" 0 ⟨[.boolV true], [], [], ""⟩ = .ok ⟨[], [], [], "True\n"⟩
    ∧ ("True\n" : String) ≠ "ಸರಿ\n" := by
  constructor
  · simp [executeWord, lookupBuiltin, runBuiltin, builtinPrint, popV, pyStr, pyRepr]
  · decide

/-- C3 (amended): the VM built-in `print` pops one value and writes its
Python `str()` rendering followed by a newline: booleans therefore print
as `True`/`False` (not `ಸರಿ`/`ತಪ್ಪು`), and floats print with Python's
float `repr`, not `%g`-equivalent formatting — the `ಸರಿ`/`ತಪ್ಪು` and `%g`
behaviour belongs to the generated C runtime's `print_op`, not to the
VM. -/
theorem c3_print_via_pystr :
    (∀ (v : Value) (S : List Value) (w : List (String × KBlock))
        (vr : List (String × Value)) (o : String) (f : Nat),
        executeWord "print" f ⟨v :: S, w, vr, o⟩ = .ok ⟨S, w, vr, o ++ pyStr v ++ "\n"⟩)
    ∧ pyStr (.boolV true) = "True"
    ∧ pyStr (.boolV false) = "False" := by
  refine ⟨?_, rfl, rfl⟩
  intro v S w vr o f
  simp [executeWord, lookupBuiltin, runBuiltin, builtinPrint, popV, vmPush]

/-! #### C6: lexer totality and error discipline -/

theorem simpleToken_ne_eof (c : Char) : simpleToken c ≠ some .eof := by
  unfold simpleToken
  split <;> simp

/-- The only EOF-typed token the lexer can produce is the one fabricated
at end of input. -/
theorem nextToken_eof_shape (l : List Char) :
    (nextToken l).1.type = .eof → (nextToken l).1 = mkTok .eof "" := by
  unfold nextToken
  cases skipWs l with
  | nil => intro _; rfl
  | cons c rest =>
    repeat' split
    all_goals (intro h; try simp_all [mkTok])
    all_goals exact absurd (by assumption) (simpleToken_ne_eof _)

theorem ne_nil_of_getLast_eof (l : List Token) (h : l.getLast? = some (mkTok .eof "")) :
    l ≠ [] := by
  intro hc; rw [hc] at h; simp at h

/-- `scan_all` always returns a token list whose last element is the EOF
token and which contains exactly one EOF token. -/
theorem scanAll_struct (l : List Char) :
    (scanAll l).getLast? = some (mkTok .eof "")
    ∧ (scanAll l).countP (fun t => t.type == .eof) = 1 := by
  induction l using scanAll.induct with
  | case1 x t rest hnt htype =>
    have hshape : t = mkTok .eof "" := by
      have h2 := nextToken_eof_shape x (by rw [hnt]; exact htype)
      rwa [hnt] at h2
    have hs : scanAll x = [t] := by rw [scanAll, hnt]; simp [htype]
    rw [hs, hshape]
    constructor
    · rfl
    · simp [mkTok]
  | case2 x t rest hnt htype ih =>
    have hs : scanAll x = t :: scanAll rest := by rw [scanAll, hnt]; simp [htype]
    have hne : scanAll rest ≠ [] := ne_nil_of_getLast_eof _ ih.1
    constructor
    · rw [hs]
      cases hrest : scanAll rest with
      | nil => exact absurd hrest hne
      | cons y ys =>
        rw [List.getLast?_cons_cons, ← hrest]
        exact ih.1
    · rw [hs, List.countP_cons]
      have hpred : (fun t : Token => t.type == TokenType.eof) t = false := by
        simp [htype]
      simp [hpred, ih.2]

theorem simpleToken_ne_err (c : Char) : simpleToken c ≠ some .error := by
  unfold simpleToken
  split <;> simp

theorem scanAll_cons_of_nextToken (x : List Char) (tok : Token) (r : List Char)
    (hnt : nextToken x = (tok, r)) (hne : tok.type ≠ .eof) :
    scanAll x = tok :: scanAll r := by
  rw [scanAll, hnt]
  simp [hne]

theorem no_error_step (x : List Char) (tok : Token) (r : List Char)
    (hnt : nextToken x = (tok, r)) (hne : tok.type ≠ .eof) (herr : tok.type ≠ .error)
    (ihr : ∀ t ∈ scanAll r, t.type ≠ .error) : ∀ t ∈ scanAll x, t.type ≠ .error := by
  rw [scanAll_cons_of_nextToken x tok r hnt hne]
  intro t ht
  rcases List.mem_cons.mp ht with h | h
  · subst h; exact herr
  · exact ihr t h

/-- A source the well-formedness scan accepts lexes with no Error
token. -/
theorem hasLexErr_no_error : ∀ l, hasLexErr l = false → ∀ t ∈ scanAll l, t.type ≠ .error := by
  intro l
  induction l using hasLexErr.induct with
  | case1 x hsk =>
    intro _ t ht
    have hnt : nextToken x = (mkTok .eof "", []) := by unfold nextToken; rw [hsk]
    have hs : scanAll x = [mkTok .eof ""] := by rw [scanAll, hnt]; simp [mkTok]
    rw [hs] at ht
    simp at ht
    subst ht
    simp [mkTok]
  | case2 x c rest hsk hdig ih =>
    intro h
    rcases hnl : numLoop rest false [c] with ⟨ds, hdot, r⟩
    simp only [hnl] at ih
    have hh : hasLexErr r = false := by
      rw [hasLexErr, hsk] at h
      simpa [hdig, hnl] using h
    have hnt : nextToken x = (mkTok .number (String.mk ds) (some (litOfLexeme ds hdot)), r) := by
      unfold nextToken; rw [hsk]; simp [hdig, hnl]
    exact no_error_step x _ r hnt (by simp [mkTok]) (by simp [mkTok]) (ih hh)
  | case3 x rest s1 s2 r hsl hsk hdig ih =>
    intro h
    have hh : hasLexErr r = false := by
      rw [hasLexErr, hsk] at h
      simp [hdig] at h
      split at h
      next s1x s2x rx heq2 =>
        rw [hsl] at heq2
        obtain ⟨rfl, rfl, rfl⟩ := Prod.mk.injEq .. ▸ (Option.some.injEq .. ▸ heq2 : (s1, s2, r) = (s1x, s2x, rx))
        exact h
      next heq2 => rw [hsl] at heq2; cases heq2
    have hnt : nextToken x = (mkTok .string ("\"" ++ s1 ++ "\"") (some (.strL s2)), r) := by
      unfold nextToken; rw [hsk]; simp [hdig, hsl]
    exact no_error_step x _ r hnt (by simp [mkTok]) (by simp [mkTok]) (ih hh)
  | case4 x rest hsl hsk hdig =>
    intro h
    exfalso
    rw [hasLexErr, hsk] at h
    simp [hdig] at h
    split at h
    next s1x s2x rx heq2 => rw [hsl] at heq2; cases heq2
    next heq2 => cases h
  | case5 x c rest hsk hd hq hw ih =>
    intro h
    have hh : hasLexErr (rest.dropWhile is_word_char) = false := by
      rw [hasLexErr, hsk] at h
      simpa [hd, hq, hw] using h
    have hnt : nextToken x =
        (mkTok .word (String.mk (c :: rest.takeWhile is_word_char)), rest.dropWhile is_word_char) := by
      unfold nextToken; rw [hsk]; simp [hd, hq, hw]
    exact no_error_step x _ _ hnt (by simp [mkTok]) (by simp [mkTok]) (ih hh)
  | case6 x c rest hsk hd hq hw hc ih =>
    intro h
    obtain ⟨rfl, hhead⟩ := hc
    have hh : hasLexErr (rest.drop 1) = false := by
      rw [hasLexErr, hsk] at h
      simpa [(by decide : pyIsDigit ':' = false), (by decide : ¬(':' = '"')),
        (by decide : is_word_start ':' = false), hhead] using h
    have hnt : nextToken x = (mkTok .assign ":=", rest.drop 1) := by
      unfold nextToken; rw [hsk]
      simp [(by decide : pyIsDigit ':' = false), (by decide : ¬(':' = '"')),
        (by decide : is_word_start ':' = false), hhead]
    exact no_error_step x _ _ hnt (by simp [mkTok]) (by simp [mkTok]) (ih hh)
  | case7 x c rest hsk hd hq hw hc1 hc ih =>
    intro h
    obtain ⟨rfl, hhead⟩ := hc
    have hh : hasLexErr (rest.drop 1) = false := by
      rw [hasLexErr, hsk] at h
      simpa [(by decide : pyIsDigit '!' = false), (by decide : ¬('!' = '"')),
        (by decide : is_word_start '!' = false), hhead] using h
    have hnt : nextToken x = (mkTok .neq "!=", rest.drop 1) := by
      unfold nextToken; rw [hsk]
      simp [(by decide : pyIsDigit '!' = false), (by decide : ¬('!' = '"')),
        (by decide : is_word_start '!' = false), (by decide : ¬('!' = ':')), hhead]
    exact no_error_step x _ _ hnt (by simp [mkTok]) (by simp [mkTok]) (ih hh)
  | case8 x c rest hsk hd hq hw hc1 hc2 hc ih =>
    intro h
    obtain ⟨rfl, hhead⟩ := hc
    have hh : hasLexErr (rest.drop 1) = false := by
      rw [hasLexErr, hsk] at h
      simpa [(by decide : pyIsDigit '<' = false), (by decide : ¬('<' = '"')),
        (by decide : is_word_start '<' = false), (by decide : ¬('<' = ':')),
        (by decide : ¬('<' = '!')), hhead] using h
    have hnt : nextToken x = (mkTok .lte "<=", rest.drop 1) := by
      unfold nextToken; rw [hsk]
      simp [(by decide : pyIsDigit '<' = false), (by decide : ¬('<' = '"')),
        (by decide : is_word_start '<' = false), (by decide : ¬('<' = ':')),
        (by decide : ¬('<' = '!')), hhead]
    exact no_error_step x _ _ hnt (by simp [mkTok]) (by simp [mkTok]) (ih hh)
  | case9 x c rest hsk hd hq hw hc1 hc2 hc3 hc ih =>
    intro h
    obtain ⟨rfl, hhead⟩ := hc
    have hh : hasLexErr (rest.drop 1) = false := by
      rw [hasLexErr, hsk] at h
      simpa [(by decide : pyIsDigit '>' = false), (by decide : ¬('>' = '"')),
        (by decide : is_word_start '>' = false), (by decide : ¬('>' = ':')),
        (by decide : ¬('>' = '!')), (by decide : ¬('>' = '<')), hhead] using h
    have hnt : nextToken x = (mkTok .gte ">=", rest.drop 1) := by
      unfold nextToken; rw [hsk]
      simp [(by decide : pyIsDigit '>' = false), (by decide : ¬('>' = '"')),
        (by decide : is_word_start '>' = false), (by decide : ¬('>' = ':')),
        (by decide : ¬('>' = '!')), (by decide : ¬('>' = '<')), hhead]
    exact no_error_step x _ _ hnt (by simp [mkTok]) (by simp [mkTok]) (ih hh)
  | case10 x c rest hsk hd hq hw hc1 hc2 hc3 hc4 tt heq ih =>
    intro h
    have hh : hasLexErr rest = false := by
      rw [hasLexErr, hsk] at h
      simpa [hd, hq, hw, hc1, hc2, hc3, hc4, heq] using h
    have hnt : nextToken x = (mkTok tt (String.mk [c]), rest) := by
      unfold nextToken; rw [hsk]; simp [hd, hq, hw, hc1, hc2, hc3, hc4, heq]
    refine no_error_step x _ _ hnt ?_ ?_ (ih hh)
    · simp only [mkTok]
      intro hcon
      exact simpleToken_ne_eof c (hcon ▸ heq)
    · simp only [mkTok]
      intro hcon
      exact simpleToken_ne_err c (hcon ▸ heq)
  | case11 x rest hsk hd hq hw hc1 hc2 hc3 hc4 heq ih =>
    intro h
    have hh : hasLexErr rest = false := by
      rw [hasLexErr, hsk] at h
      simpa [hd, hq, hw, hc1, hc2, hc3, hc4, heq] using h
    have hnt : nextToken x = (mkTok .defEnd (String.mk ['॥']), rest) := by
      unfold nextToken; rw [hsk]; simp [hd, hq, hw, hc1, hc2, hc3, hc4, heq]
    exact no_error_step x _ _ hnt (by simp [mkTok]) (by simp [mkTok]) (ih hh)
  | case12 x c rest hsk hd hq hw hc1 hc2 hc3 hc4 heq hdan =>
    intro h
    exfalso
    rw [hasLexErr, hsk] at h
    simp [hd, hq, hw, hc1, hc2, hc3, hc4, heq] at h
    exact hdan h.1

/-- C6: for every source string the lexer is total (the Lean embedding
is a total function: tokenisation never throws) and returns a finite
token list ending in exactly one EOF token; lexical errors surface only
as Error tokens, and a source with no unterminated string and no stray
unknown character — the `hasLexErr` scan, which mirrors the lexer's walk
over the source without reference to tokens — produces no Error token at
all. -/
theorem c6_lexer_eof_and_errors :
    ∀ source : String,
      (tokenize source).getLast? = some (mkTok .eof "")
      ∧ (tokenize source).countP (fun t => t.type == .eof) = 1
      ∧ (hasLexErr source.toList = false → ∀ t ∈ tokenize source, t.type ≠ .error) :=
  fun s => ⟨(scanAll_struct s.toList).1, (scanAll_struct s.toList).2,
    hasLexErr_no_error s.toList⟩

/-- C6 witness: the theorem evaluated on the concrete one-numeral source
`೫`, whose well-formedness side condition is discharged by evaluation. -/
theorem c6_witness :
    hasLexErr ("೫".toList) = false
    ∧ ∀ t ∈ tokenize "೫", t.type ≠ .error := by
  have hsw2 : skipWs ([] : List Char) = [] := by rw [skipWs]
  have h0 : hasLexErr ([] : List Char) = false := by unfold hasLexErr; rw [hsw2]
  have h : hasLexErr ("೫".toList) = false := by
    rw [show ("೫".toList) = ['೫'] from rfl]
    have h1 : pyIsDigit '೫' = true := by decide
    have hsw : skipWs ['೫'] = ['೫'] := by rw [skipWs]; simp
    have hnl : numLoop [] false ['೫'] = (['೫'], false, []) := rfl
    unfold hasLexErr
    rw [hsw]
    simp [h1, hnl, h0]
  exact ⟨h, (c6_lexer_eof_and_errors "೫").2.2 h⟩

/-! #### C9: `map` preserves list length -/

theorem mapLoop_length (B : KBlock) (f : Nat)
    (hB : ∀ (st : VMState) (v : Value) (rest : List Value), st.stack = v :: rest →
        ∃ w st2, runQuot (.blockV B) f st = .ok st2 ∧ st2.stack = w :: rest) :
    ∀ (items acc : List Value) (st : VMState),
      ∃ M st2, mapLoop (.blockV B) items acc f st = .ok st2
        ∧ st2.stack = .listV (acc ++ M) :: st.stack ∧ M.length = items.length := by
  intro items
  induction items with
  | nil =>
    intro acc st
    exact ⟨[], vmPush (.listV acc) st, by simp [mapLoop], by simp [vmPush], rfl⟩
  | cons v rest ih =>
    intro acc st
    obtain ⟨w, st2, hq, hstk⟩ := hB (vmPush v st) v st.stack (by simp [vmPush])
    have hpop : popV st2 = .ok (w, { st2 with stack := st.stack }) := by
      simp [popV, hstk]
    obtain ⟨M, st3, hm, hstk3, hlen⟩ := ih (acc ++ [w]) { st2 with stack := st.stack }
    refine ⟨w :: M, st3, ?_, ?_, by simp [hlen]⟩
    · rw [mapLoop]
      simp only [hq, hpop]
      exact hm
    · simpa using hstk3

/-- C9: for any list `L` and any block `B` whose execution pops exactly
one value and pushes exactly one value (from every state whose stack has
a top, it succeeds leaving one new top above the untouched remainder),
executing the `map` built-in on a stack holding `B` above `L` succeeds
and pushes a fresh list whose length equals the length of `L`. -/
theorem c9_map_length :
    ∀ (B : KBlock) (f : Nat),
      (∀ (st : VMState) (v : Value) (rest : List Value), st.stack = v :: rest →
          ∃ w st2, runQuot (.blockV B) f st = .ok st2 ∧ st2.stack = w :: rest) →
      ∀ (L S : List Value) (st : VMState),
        st.stack = .blockV B :: .listV L :: S →
        ∃ M st2, executeWord "map" f st = .ok st2
          ∧ st2.stack = .listV M :: S ∧ M.length = L.length := by
  intro B f hB L S st hstk
  have hew : executeWord "map" f st =
      mapLoop (.blockV B) L [] f { st with stack := S } := by
    rw [executeWord]
    simp [lookupBuiltin, runBuiltin, popV2, popV, hstk]
  obtain ⟨M, st2, hm, hstk2, hlen⟩ :=
    mapLoop_length B f hB L [] { st with stack := S }
  exact ⟨M, st2, by rw [hew]; exact hm, by simpa using hstk2, hlen⟩

/-- C9 witness: the theorem applied to the empty block (a pop-1/push-1
no-op) and the concrete two-element list `[5, "a"]`. -/
theorem c9_witness :
    ∃ M st2,
      executeWord "map" 1 ⟨[.blockV ⟨[], []⟩, .listV [.intV 5, .strV "a"]], [], [], ""⟩ =
        .ok st2
      ∧ st2.stack = .listV M :: [] ∧ M.length = 2 := by
  have hB : ∀ (st : VMState) (v : Value) (rest : List Value), st.stack = v :: rest →
      ∃ w st2, runQuot (.blockV ⟨[], []⟩) 1 st = .ok st2 ∧ st2.stack = w :: rest := by
    intro st v rest h
    refine ⟨v, st, ?_, h⟩
    rw [runQuot]
    simp [bindLoop, execTokens, restoreVars]
  exact c9_map_length ⟨[], []⟩ 1 hB [.intV 5, .strV "a"] []
    ⟨[.blockV ⟨[], []⟩, .listV [.intV 5, .strV "a"]], [], [], ""⟩ rfl


/-! #### C8: block parameter binding and restoration

Dictionary bookkeeping lemmas for the variable environment. -/

theorem lookupD_setD {α : Type} (d : List (String × α)) (k : String) (v : α) (name : String) :
    lookupD (setD d k v) name = if name = k then some v else lookupD d name := by
  induction d with
  | nil =>
    by_cases h : name = k
    · simp [setD, lookupD, h]
    · have hn : ¬k = name := fun h2 => h h2.symm
      simp [setD, lookupD, h, hn]
  | cons kv rest ih =>
    obtain ⟨k2, w⟩ := kv
    by_cases h2 : k2 = k
    · subst h2
      by_cases h : k2 = name
      · subst h
        simp [setD, lookupD]
      · have hn : ¬name = k2 := fun h3 => h h3.symm
        simp [setD, lookupD, h, hn]
    · by_cases h : k2 = name
      · subst h
        simp [setD, lookupD, h2]
      · have hn : ¬name = k2 := fun h3 => h h3.symm
        simp only [setD, if_neg h2, lookupD, if_neg h, ih]

theorem setD_fresh {α : Type} (d : List (String × α)) (k : String) (v : α)
    (h : lookupD d k = none) : setD d k v = d ++ [(k, v)] := by
  induction d with
  | nil => rfl
  | cons kv rest ih =>
    obtain ⟨k2, w⟩ := kv
    by_cases h2 : k2 = k
    · subst h2; simp [lookupD] at h
    · simp [lookupD, h2] at h
      simp [setD, h2, ih h]

theorem lookupD_eraseD_ne {α : Type} (d : List (String × α)) (k name : String)
    (h : name ≠ k) : lookupD (eraseD d k) name = lookupD d name := by
  induction d with
  | nil => rfl
  | cons kv rest ih =>
    obtain ⟨k2, w⟩ := kv
    by_cases h2 : k2 = k
    · subst h2
      have hn : ¬k2 = name := fun h3 => h h3.symm
      simp [eraseD, lookupD, hn]
    · simp [eraseD, lookupD, h2, ih]

theorem countKey_eq_zero_of_lookup_none {α : Type} (d : List (String × α)) (k : String)
    (h : lookupD d k = none) : countKey d k = 0 := by
  induction d with
  | nil => rfl
  | cons kv rest ih =>
    obtain ⟨k2, w⟩ := kv
    by_cases h2 : k2 = k
    · subst h2; simp [lookupD] at h
    · simp [lookupD, h2] at h
      simp [countKey, List.countP_cons, h2] at ih ⊢
      exact ih h

theorem lookup_none_of_countKey_zero {α : Type} (d : List (String × α)) (k : String)
    (h : countKey d k = 0) : lookupD d k = none := by
  induction d with
  | nil => rfl
  | cons kv rest ih =>
    obtain ⟨k2, w⟩ := kv
    by_cases h2 : k2 = k
    · subst h2
      simp [countKey, List.countP_cons] at h
    · simp [countKey, List.countP_cons, h2] at h
      simp [lookupD, h2]
      exact ih (by simpa [countKey] using h)

theorem countKey_setD_ne {α : Type} (d : List (String × α)) (q : String) (v : α)
    (k : String) (h : q ≠ k) : countKey (setD d q v) k = countKey d k := by
  induction d with
  | nil => simp [setD, countKey, List.countP_cons, h]
  | cons kv rest ih =>
    obtain ⟨k2, w⟩ := kv
    by_cases h2 : k2 = q
    · subst h2; simp [setD, countKey, List.countP_cons]
    · simp [setD, h2, countKey, List.countP_cons] at ih ⊢
      omega

theorem countKey_eraseD_ne {α : Type} (d : List (String × α)) (q k : String)
    (h : q ≠ k) : countKey (eraseD d q) k = countKey d k := by
  induction d with
  | nil => rfl
  | cons kv rest ih =>
    obtain ⟨k2, w⟩ := kv
    by_cases h2 : k2 = q
    · subst h2
      simp [eraseD, countKey, List.countP_cons, h]
    · simp [eraseD, h2, countKey, List.countP_cons] at ih ⊢
      omega

theorem lookupD_eraseD_self {α : Type} (d : List (String × α)) (k : String)
    (h : countKey d k ≤ 1) : lookupD (eraseD d k) k = none := by
  induction d with
  | nil => rfl
  | cons kv rest ih =>
    obtain ⟨k2, w⟩ := kv
    by_cases h2 : k2 = k
    · subst h2
      have hc : countKey ((k2, w) :: rest) k2 = countKey rest k2 + 1 := by
        unfold countKey
        rw [List.countP_cons]
        simp
      rw [hc] at h
      simp [eraseD]
      exact lookup_none_of_countKey_zero rest k2 (by omega)
    · have hc : countKey ((k2, w) :: rest) k = countKey rest k := by
        unfold countKey
        rw [List.countP_cons]
        simp [h2]
      rw [hc] at h
      simp [eraseD, h2, lookupD]
      exact ih h

theorem countKey_setD_fresh {α : Type} (d : List (String × α)) (k : String) (v : α)
    (h : lookupD d k = none) : countKey (setD d k v) k = 1 := by
  have h0 : countKey d k = 0 := countKey_eq_zero_of_lookup_none d k h
  rw [setD_fresh d k v h]
  unfold countKey at h0 ⊢
  rw [List.countP_append, h0, List.countP_cons]
  simp

theorem lookupD_none_of_not_mem_keys {α : Type} (d : List (String × α)) (k : String)
    (h : k ∉ d.map Prod.fst) : lookupD d k = none := by
  induction d with
  | nil => rfl
  | cons kv rest ih =>
    obtain ⟨k2, w⟩ := kv
    simp only [List.map_cons, List.mem_cons, not_or] at h
    have hn : ¬k2 = k := fun h3 => h.1 h3.symm
    simp [lookupD, hn]
    exact ih h.2

theorem lookupD_map_self (l : List String) (g : String → Option Value) (name : String) :
    lookupD (l.map (fun p => (p, g p))) name =
      if name ∈ l then some (g name) else none := by
  induction l with
  | nil => rfl
  | cons p rest ih =>
    by_cases h : name = p
    · subst h; simp [lookupD]
    · have hn : ¬p = name := fun h2 => h h2.symm
      simp [lookupD, hn, ih, h]

/-- Specification of the parameter-binding loop on a list of distinct
names with enough stack: it succeeds, recording each name's previous
binding in processing order, popping `ps[i]` into `vals[i]`, and leaving
every other variable untouched (also in key-multiplicity). -/
theorem bindLoop_spec :
    ∀ (ps : List String) (st : VMState) (vals rest : List Value)
      (saved0 : List (String × Option Value)),
      ps.Nodup →
      (∀ p ∈ ps, lookupD saved0 p = none) →
      st.stack = vals ++ rest →
      vals.length = ps.length →
      ∃ st1,
        bindLoop ps saved0 st =
          .okB (saved0 ++ ps.map (fun p => (p, lookupD st.vars p))) st1
        ∧ st1.stack = rest
        ∧ st1.words = st.words
        ∧ st1.out = st.out
        ∧ (∀ (i : Nat) (name : String), ps[i]? = some name →
            lookupD st1.vars name = vals[i]?)
        ∧ (∀ name, name ∉ ps → lookupD st1.vars name = lookupD st.vars name)
        ∧ (∀ name, name ∉ ps → countKey st1.vars name = countKey st.vars name)
        ∧ (∀ name ∈ ps, lookupD st.vars name = none → countKey st1.vars name ≤ 1) := by
  intro ps
  induction ps with
  | nil =>
    intro st vals rest saved0 _ _ hstk hlen
    have hv : vals = [] := List.length_eq_zero.mp (by simpa using hlen)
    subst hv
    refine ⟨st, by simp [bindLoop], by simpa using hstk, rfl, rfl, ?_, fun _ _ => rfl,
      fun _ _ => rfl, ?_⟩
    · intro i name h
      simp at h
    · intro name h
      simp at h
  | cons p ps2 ih =>
    intro st vals rest saved0 hnd hfresh hstk hlen
    obtain ⟨v, vals2, rfl⟩ : ∃ v vals2, vals = v :: vals2 := by
      cases vals with
      | nil => simp at hlen
      | cons v vals2 => exact ⟨v, vals2, rfl⟩
    have hpn : p ∉ ps2 := (List.nodup_cons.mp hnd).1
    have hnd2 : ps2.Nodup := (List.nodup_cons.mp hnd).2
    have hp0 : lookupD saved0 p = none := hfresh p (by simp)
    have hfresh2 : ∀ q ∈ ps2, lookupD (setD saved0 p (lookupD st.vars p)) q = none := by
      intro q hq
      rw [lookupD_setD]
      have hqp : q ≠ p := fun h => hpn (h ▸ hq)
      simp [hqp]
      exact hfresh q (by simp [hq])
    obtain ⟨st1, hbind, hstk1, hw1, ho1, hidx, hunt, hcnt, hle⟩ :=
      ih { st with stack := vals2 ++ rest, vars := setD st.vars p v } vals2 rest
        (setD saved0 p (lookupD st.vars p)) hnd2 hfresh2 rfl (by simpa using hlen)
    have hstep : bindLoop (p :: ps2) saved0 st =
        bindLoop ps2 (setD saved0 p (lookupD st.vars p))
          { st with stack := vals2 ++ rest, vars := setD st.vars p v } := by
      rw [bindLoop, hstk]
      rfl
    refine ⟨st1, ?_, hstk1, hw1, ho1, ?_, ?_, ?_, ?_⟩
    · rw [hstep, hbind, setD_fresh saved0 p (lookupD st.vars p) hp0]
      have hmap : ps2.map
            (fun q => (q, lookupD
              ({ st with stack := vals2 ++ rest, vars := setD st.vars p v } : VMState).vars q)) =
          ps2.map (fun q => (q, lookupD st.vars q)) := by
        apply List.map_congr_left
        intro q hq
        have hqp : ¬q = p := fun h => hpn (h ▸ hq)
        simp [lookupD_setD, hqp]
      rw [hmap]
      simp
    · intro i name hgi
      cases i with
      | zero =>
        simp at hgi
        subst hgi
        rw [hunt p hpn]
        simp [lookupD_setD]
      | succ j =>
        simp only [List.getElem?_cons_succ] at hgi ⊢
        rw [hidx j name hgi]
    · intro name hnm
      have hnp : ¬name = p := fun h => hnm (by simp [h])
      rw [hunt name (fun h => hnm (by simp [h]))]
      simp [lookupD_setD, hnp]
    · intro name hnm
      have hnp : ¬name = p := fun h => hnm (by simp [h])
      rw [hcnt name (fun h => hnm (by simp [h]))]
      exact countKey_setD_ne st.vars p v name (fun h => hnp h.symm)
    · intro name hmem hnone
      rcases List.mem_cons.mp hmem with h1 | h2
      · rw [h1] at hnone ⊢
        rw [hcnt p hpn]
        exact le_of_eq (countKey_setD_fresh st.vars p v hnone)
      · refine hle name h2 ?_
        have hqp : ¬name = p := fun h => hpn (h ▸ h2)
        simp [lookupD_setD, hqp, hnone]

/-- Specification of the restore loop: with distinct saved keys, and at
most one occurrence of every to-be-deleted key, each saved name goes
back to its saved binding and all other bindings are untouched; the
stack, words and output are untouched. -/
theorem restore_correct :
    ∀ (saved : List (String × Option Value)) (st2 : VMState),
      (saved.map Prod.fst).Nodup →
      (∀ p, (p, (none : Option Value)) ∈ saved → countKey st2.vars p ≤ 1) →
      (∀ name, lookupD (restoreVars saved st2).vars name =
        match lookupD saved name with
        | some ov => ov
        | none => lookupD st2.vars name)
      ∧ (restoreVars saved st2).stack = st2.stack
      ∧ (restoreVars saved st2).words = st2.words
      ∧ (restoreVars saved st2).out = st2.out := by
  intro saved
  induction saved with
  | nil => intro st2 _ _; exact ⟨fun name => rfl, rfl, rfl, rfl⟩
  | cons pv rest2 ih =>
    intro st2 hnd hcnt
    obtain ⟨p, ov⟩ := pv
    have hpn : p ∉ rest2.map Prod.fst := (List.nodup_cons.mp hnd).1
    have hnd2 : (rest2.map Prod.fst).Nodup := (List.nodup_cons.mp hnd).2
    cases ov with
    | none =>
      have hc1 : countKey st2.vars p ≤ 1 := hcnt p (by simp)
      have hcnt2 : ∀ q, (q, (none : Option Value)) ∈ rest2 →
          countKey ({ st2 with vars := eraseD st2.vars p } : VMState).vars q ≤ 1 := by
        intro q hq
        have hqp : ¬q = p := fun h => hpn (List.mem_map.mpr ⟨(q, none), hq, h⟩)
        have hcq : countKey (eraseD st2.vars p) q = countKey st2.vars q :=
          countKey_eraseD_ne st2.vars p q (fun h => hqp h.symm)
        calc countKey ({ st2 with vars := eraseD st2.vars p } : VMState).vars q
            = countKey st2.vars q := hcq
          _ ≤ 1 := hcnt q (by simp [hq])
      obtain ⟨hlook, hstk, hw, ho⟩ :=
        ih { st2 with vars := eraseD st2.vars p } hnd2 hcnt2
      refine ⟨?_, by simpa [restoreVars] using hstk, by simpa [restoreVars] using hw,
        by simpa [restoreVars] using ho⟩
      intro name
      show lookupD (restoreVars rest2 { st2 with vars := eraseD st2.vars p }).vars name = _
      rw [hlook name]
      by_cases h : name = p
      · rw [h, lookupD_none_of_not_mem_keys rest2 p hpn]
        simp [lookupD]
        exact lookupD_eraseD_self st2.vars p hc1
      · have hn : ¬p = name := fun h2 => h h2.symm
        have hcons : lookupD ((p, (none : Option Value)) :: rest2) name =
            lookupD rest2 name := by
          simp [lookupD, hn]
        rw [hcons]
        cases hrest : lookupD rest2 name with
        | none =>
          simp [hrest]
          exact lookupD_eraseD_ne st2.vars p name h
        | some ov => simp [hrest]
    | some w =>
      have hcnt2 : ∀ q, (q, (none : Option Value)) ∈ rest2 →
          countKey ({ st2 with vars := setD st2.vars p w } : VMState).vars q ≤ 1 := by
        intro q hq
        have hqp : ¬q = p := fun h => hpn (List.mem_map.mpr ⟨(q, none), hq, h⟩)
        have hcq : countKey (setD st2.vars p w) q = countKey st2.vars q :=
          countKey_setD_ne st2.vars p w q (fun h => hqp h.symm)
        calc countKey ({ st2 with vars := setD st2.vars p w } : VMState).vars q
            = countKey st2.vars q := hcq
          _ ≤ 1 := hcnt q (by simp [hq])
      obtain ⟨hlook, hstk, hw, ho⟩ :=
        ih { st2 with vars := setD st2.vars p w } hnd2 hcnt2
      refine ⟨?_, by simpa [restoreVars] using hstk, by simpa [restoreVars] using hw,
        by simpa [restoreVars] using ho⟩
      intro name
      show lookupD (restoreVars rest2 { st2 with vars := setD st2.vars p w }).vars name = _
      rw [hlook name]
      by_cases h : name = p
      · rw [h, lookupD_none_of_not_mem_keys rest2 p hpn]
        simp [lookupD]
        rw [lookupD_setD]
        simp
      · have hn : ¬p = name := fun h2 => h h2.symm
        have hcons : lookupD ((p, some w) :: rest2) name = lookupD rest2 name := by
          simp [lookupD, hn]
        rw [hcons]
        cases hrest : lookupD rest2 name with
        | none =>
          simp [hrest]
          rw [lookupD_setD]
          simp [h]
        | some ov => simp [hrest]

/-- C8 counterexample: the claim says that on block exit every variable
binding shadowed by a parameter is restored to its pre-call value.  For
the duplicate parameter list `["x", "x"]` (vm.py iterates the list
as-is, so a name may repeat), with pre-call binding x = 100 and stack
`[7, 5]`, the second binding of `x` overwrites the saved pre-call value
100 with the intermediate value 7, so after the block x = 7, not 100. -/
theorem c8_counterexample :
    runQuot (.blockV ⟨[], ["x", "x"]⟩) 1 ⟨[.intV 7, .intV 5], [], [("x", .intV 100)], ""⟩ =
      .ok ⟨[], [], [("x", .intV 7)], ""⟩
    ∧ lookupD [("x", Value.intV 7)] "x" = some (.intV 7)
    ∧ (Value.intV 7 : Value) ≠ .intV 100 := by
  refine ⟨?_, rfl, by simp⟩
  rw [runQuot]
  simp [bindLoop, execTokens, restoreVars, setD, eraseD, lookupD]

/-- C8 (amended): when the VM runs a block whose parameter list has `n`
DISTINCT names, the binding loop pops the `n` topmost values, binding in
reverse declaration order — the parameter at index `i` receives the
value at stack depth `n - 1 - i`, so the LAST-declared name binds the
top of the stack — while every variable not named by a parameter keeps
its binding; and if the block body then completes normally leaving the
variable map as the binding loop set it, the block call returns the
restored state, in which EVERY variable (shadowed parameters included)
holds its exact pre-call binding, with the body's stack and output kept.
(With a repeated parameter name the saved-binding dict is overwritten
and restoration is to an intermediate value, not the pre-call one — see
the counterexample.) -/
theorem c8_param_binding_and_restore
    (b : KBlock) (st : VMState) (vals rest : List Value) (f : Nat)
    (hnd : b.params.Nodup)
    (hstk : st.stack = vals ++ rest)
    (hlen : vals.length = b.params.length) :
    ∃ st1,
      bindLoop b.params.reverse [] st =
        .okB (b.params.reverse.map (fun p => (p, lookupD st.vars p))) st1
      ∧ st1.stack = rest
      ∧ st1.words = st.words
      ∧ st1.out = st.out
      ∧ (∀ (i : Nat) (name : String), b.params[i]? = some name →
          lookupD st1.vars name = vals[b.params.length - 1 - i]?)
      ∧ (∀ name, name ∉ b.params → lookupD st1.vars name = lookupD st.vars name)
      ∧ (∀ st2, execTokens b.tokens f st1 = .ok st2 → st2.vars = st1.vars →
          runQuot (.blockV b) (f + 1) st =
            .ok (restoreVars (b.params.reverse.map (fun p => (p, lookupD st.vars p))) st2)
          ∧ (∀ name,
              lookupD (restoreVars
                  (b.params.reverse.map (fun p => (p, lookupD st.vars p))) st2).vars name =
                lookupD st.vars name)
          ∧ (restoreVars
                (b.params.reverse.map (fun p => (p, lookupD st.vars p))) st2).stack = st2.stack
          ∧ (restoreVars
                (b.params.reverse.map (fun p => (p, lookupD st.vars p))) st2).out = st2.out) := by
  have hnd2 : b.params.reverse.Nodup := List.nodup_reverse.mpr hnd
  obtain ⟨st1, hbind, hstk1, hw1, ho1, hidx, hunt, hcnt, hle⟩ :=
    bindLoop_spec b.params.reverse st vals rest [] hnd2 (fun _ _ => rfl) hstk
      (by simpa using hlen)
  have hbind2 : bindLoop b.params.reverse [] st =
      .okB (b.params.reverse.map (fun p => (p, lookupD st.vars p))) st1 := by
    simpa using hbind
  refine ⟨st1, hbind2, hstk1, hw1, ho1, ?_, ?_, ?_⟩
  · intro i name hgi
    have hi : i < b.params.length := by
      rcases Nat.lt_or_ge i b.params.length with h | h
      · exact h
      · rw [List.getElem?_eq_none h] at hgi
        cases hgi
    have hrev : b.params.reverse[b.params.length - 1 - i]? = some name := by
      rw [List.getElem?_reverse (by omega)]
      have he : b.params.length - 1 - (b.params.length - 1 - i) = i := by omega
      rw [he]
      exact hgi
    exact hidx (b.params.length - 1 - i) name hrev
  · intro name hnm
    exact hunt name (by simpa using hnm)
  · intro st2 hexec hvars
    have hsk : ((b.params.reverse.map (fun p => (p, lookupD st.vars p))).map Prod.fst).Nodup := by
      have hfst : (b.params.reverse.map (fun p => (p, lookupD st.vars p))).map Prod.fst =
          b.params.reverse := by
        simp [List.map_map, Function.comp_def]
      rw [hfst]
      exact hnd2
    have hc : ∀ q, (q, (none : Option Value)) ∈
        b.params.reverse.map (fun p => (p, lookupD st.vars p)) → countKey st2.vars q ≤ 1 := by
      intro q hq
      rw [hvars]
      obtain ⟨p, hp, heq⟩ := List.mem_map.mp hq
      simp only [Prod.mk.injEq] at heq
      obtain ⟨rfl, hval⟩ := heq
      exact hle p hp hval
    obtain ⟨hlook, hstkR, hwR, hoR⟩ := restore_correct
      (b.params.reverse.map (fun p => (p, lookupD st.vars p))) st2 hsk hc
    refine ⟨?_, ?_, hstkR, hoR⟩
    · rw [runQuot]
      simp only [hbind2, hexec]
    · intro name
      rw [hlook name, lookupD_map_self]
      by_cases hm : name ∈ b.params.reverse
      · simp [hm]
      · simp only [hm, if_false]
        rw [hvars]
        exact hunt name hm

/-- C8 witness: the amended theorem at the block with parameter list
`["a", "b"]`, pre-call binding b = 9 and stack `[1, 2]`: the binding
succeeds saving b's old value and a's absence, b (last-declared) binds
the top value 1 and a binds 2. -/
theorem c8_witness :
    ∃ st1,
      bindLoop ["b", "a"] [] ⟨[.intV 1, .intV 2], [], [("b", .intV 9)], ""⟩ =
        .okB [("b", some (.intV 9)), ("a", none)] st1
      ∧ lookupD st1.vars "b" = some (.intV 1)
      ∧ lookupD st1.vars "a" = some (.intV 2) := by
  obtain ⟨st1, hbind, hstk1, hw1, ho1, hidx, hunt, hrest⟩ :=
    c8_param_binding_and_restore ⟨[], ["a", "b"]⟩
      ⟨[.intV 1, .intV 2], [], [("b", .intV 9)], ""⟩ [.intV 1, .intV 2] [] 0
      (by decide) rfl rfl
  refine ⟨st1, ?_, ?_, ?_⟩
  · simpa [lookupD] using hbind
  · simpa using hidx 1 "b" rfl
  · simpa using hidx 0 "a" rfl


/-! #### C10: parser termination -/


theorem c10_primary2 : ∀ f, pPrimary c10toks f 2 = .pfuel ∨
    pPrimary c10toks f 2 = .pok (.wordE "") 2
  | 0 => Or.inl rfl
  | f + 1 => Or.inr (by with_unfolding_all rfl)

theorem c10_unary2 : ∀ f, pUnary c10toks f 2 = .pfuel ∨
    pUnary c10toks f 2 = .pok (.wordE "") 2
  | 0 => Or.inl rfl
  | f + 1 => by
    have h : pUnary c10toks (f + 1) 2 = pPrimary c10toks f 2 := by
      with_unfolding_all rfl
    rw [h]
    exact c10_primary2 f

theorem c10_mulLoop2 : ∀ f (left : AstExpr), pMulLoop c10toks f 2 left = .pfuel ∨
    pMulLoop c10toks f 2 left = .pok left 2
  | 0, _ => Or.inl rfl
  | _ + 1, _ => Or.inr (by with_unfolding_all rfl)

theorem c10_mult2 : ∀ f, pMultiplicative c10toks f 2 = .pfuel ∨
    pMultiplicative c10toks f 2 = .pok (.wordE "") 2
  | 0 => Or.inl rfl
  | f + 1 => by
    rw [pMultiplicative]
    rcases c10_unary2 f with h | h <;> rw [h]
    · exact Or.inl rfl
    · exact c10_mulLoop2 f (.wordE "")

theorem c10_addLoop2 : ∀ f (left : AstExpr), pAddLoop c10toks f 2 left = .pfuel ∨
    pAddLoop c10toks f 2 left = .pok left 2
  | 0, _ => Or.inl rfl
  | _ + 1, _ => Or.inr (by with_unfolding_all rfl)

theorem c10_add2 : ∀ f, pAdditive c10toks f 2 = .pfuel ∨
    pAdditive c10toks f 2 = .pok (.wordE "") 2
  | 0 => Or.inl rfl
  | f + 1 => by
    rw [pAdditive]
    rcases c10_mult2 f with h | h <;> rw [h]
    · exact Or.inl rfl
    · exact c10_addLoop2 f (.wordE "")

theorem c10_compLoop2 : ∀ f (left : AstExpr), pCompLoop c10toks f 2 left = .pfuel ∨
    pCompLoop c10toks f 2 left = .pok left 2
  | 0, _ => Or.inl rfl
  | _ + 1, _ => Or.inr (by with_unfolding_all rfl)

theorem c10_comp2 : ∀ f, pComparison c10toks f 2 = .pfuel ∨
    pComparison c10toks f 2 = .pok (.wordE "") 2
  | 0 => Or.inl rfl
  | f + 1 => by
    rw [pComparison]
    rcases c10_add2 f with h | h <;> rw [h]
    · exact Or.inl rfl
    · exact c10_compLoop2 f (.wordE "")

theorem c10_andLoop2 : ∀ f (left : AstExpr), pAndLoop c10toks f 2 left = .pfuel ∨
    pAndLoop c10toks f 2 left = .pok left 2
  | 0, _ => Or.inl rfl
  | _ + 1, _ => Or.inr (by with_unfolding_all rfl)

theorem c10_and2 : ∀ f, pAnd c10toks f 2 = .pfuel ∨
    pAnd c10toks f 2 = .pok (.wordE "") 2
  | 0 => Or.inl rfl
  | f + 1 => by
    rw [pAnd]
    rcases c10_comp2 f with h | h <;> rw [h]
    · exact Or.inl rfl
    · exact c10_andLoop2 f (.wordE "")

theorem c10_orLoop2 : ∀ f (left : AstExpr), pOrLoop c10toks f 2 left = .pfuel ∨
    pOrLoop c10toks f 2 left = .pok left 2
  | 0, _ => Or.inl rfl
  | _ + 1, _ => Or.inr (by with_unfolding_all rfl)

theorem c10_or2 : ∀ f, pOr c10toks f 2 = .pfuel ∨
    pOr c10toks f 2 = .pok (.wordE "") 2
  | 0 => Or.inl rfl
  | f + 1 => by
    rw [pOr]
    rcases c10_and2 f with h | h <;> rw [h]
    · exact Or.inl rfl
    · exact c10_orLoop2 f (.wordE "")

theorem c10_ternary2 : ∀ f, pTernary c10toks f 2 = .pfuel ∨
    pTernary c10toks f 2 = .pok (.wordE "") 2
  | 0 => Or.inl rfl
  | f + 1 => by
    rw [pTernary]
    rcases c10_or2 f with h | h <;> rw [h]
    · exact Or.inl rfl
    · exact Or.inr (by with_unfolding_all rfl)

theorem c10_expr2 : ∀ f, pExpression c10toks f 2 = .pfuel ∨
    pExpression c10toks f 2 = .pok (.wordE "") 2
  | 0 => Or.inl rfl
  | f + 1 => by
    rw [pExpression]
    exact c10_ternary2 f

/-- The list-body loop never leaves position 2: the Dot token starts no
expression, `Parser._primary` returns an empty Word WITHOUT consuming
it, and the loop appends the element and retries at the same position —
the Python original loops forever; under fuel every run exhausts it. -/
theorem c10_listBody2 : ∀ (f : Nat) (acc : List AstExpr),
    pListBody c10toks f 2 acc = .pfuel := by
  intro f
  induction f with
  | zero => intro acc; rfl
  | succ f ih =>
    intro acc
    rw [pListBody]
    rcases c10_expr2 f with h | h <;> rw [h]
    · rfl
    · have h2 : pListBody c10toks f 2 (acc ++ [AstExpr.wordE ""]) = .pfuel :=
        ih (acc ++ [.wordE ""])
      simpa using h2

theorem c10_primary1 : ∀ f, pPrimary c10toks f 1 = .pfuel ∨
    pPrimary c10toks f 1 = .pok (.numberLit (some (.intL 1))) 2
  | 0 => Or.inl rfl
  | _ + 1 => Or.inr (by with_unfolding_all rfl)

theorem c10_unary1 : ∀ f, pUnary c10toks f 1 = .pfuel ∨
    pUnary c10toks f 1 = .pok (.numberLit (some (.intL 1))) 2
  | 0 => Or.inl rfl
  | f + 1 => by
    have h : pUnary c10toks (f + 1) 1 = pPrimary c10toks f 1 := by
      with_unfolding_all rfl
    rw [h]
    exact c10_primary1 f

theorem c10_mult1 : ∀ f, pMultiplicative c10toks f 1 = .pfuel ∨
    pMultiplicative c10toks f 1 = .pok (.numberLit (some (.intL 1))) 2
  | 0 => Or.inl rfl
  | f + 1 => by
    rw [pMultiplicative]
    rcases c10_unary1 f with h | h <;> rw [h]
    · exact Or.inl rfl
    · exact c10_mulLoop2 f (.numberLit (some (.intL 1)))

theorem c10_add1 : ∀ f, pAdditive c10toks f 1 = .pfuel ∨
    pAdditive c10toks f 1 = .pok (.numberLit (some (.intL 1))) 2
  | 0 => Or.inl rfl
  | f + 1 => by
    rw [pAdditive]
    rcases c10_mult1 f with h | h <;> rw [h]
    · exact Or.inl rfl
    · exact c10_addLoop2 f (.numberLit (some (.intL 1)))

theorem c10_comp1 : ∀ f, pComparison c10toks f 1 = .pfuel ∨
    pComparison c10toks f 1 = .pok (.numberLit (some (.intL 1))) 2
  | 0 => Or.inl rfl
  | f + 1 => by
    rw [pComparison]
    rcases c10_add1 f with h | h <;> rw [h]
    · exact Or.inl rfl
    · exact c10_compLoop2 f (.numberLit (some (.intL 1)))

theorem c10_and1 : ∀ f, pAnd c10toks f 1 = .pfuel ∨
    pAnd c10toks f 1 = .pok (.numberLit (some (.intL 1))) 2
  | 0 => Or.inl rfl
  | f + 1 => by
    rw [pAnd]
    rcases c10_comp1 f with h | h <;> rw [h]
    · exact Or.inl rfl
    · exact c10_andLoop2 f (.numberLit (some (.intL 1)))

theorem c10_or1 : ∀ f, pOr c10toks f 1 = .pfuel ∨
    pOr c10toks f 1 = .pok (.numberLit (some (.intL 1))) 2
  | 0 => Or.inl rfl
  | f + 1 => by
    rw [pOr]
    rcases c10_and1 f with h | h <;> rw [h]
    · exact Or.inl rfl
    · exact c10_orLoop2 f (.numberLit (some (.intL 1)))

theorem c10_ternary1 : ∀ f, pTernary c10toks f 1 = .pfuel ∨
    pTernary c10toks f 1 = .pok (.numberLit (some (.intL 1))) 2
  | 0 => Or.inl rfl
  | f + 1 => by
    rw [pTernary]
    rcases c10_or1 f with h | h <;> rw [h]
    · exact Or.inl rfl
    · exact Or.inr (by with_unfolding_all rfl)

theorem c10_expr1 : ∀ f, pExpression c10toks f 1 = .pfuel ∨
    pExpression c10toks f 1 = .pok (.numberLit (some (.intL 1))) 2
  | 0 => Or.inl rfl
  | f + 1 => by
    rw [pExpression]
    exact c10_ternary1 f

theorem c10_listBody1 : ∀ f, pListBody c10toks f 1 [] = .pfuel
  | 0 => rfl
  | f + 1 => by
    rw [pListBody]
    rcases c10_expr1 f with h | h <;> rw [h]
    · rfl
    · have h2 : pListBody c10toks f 2 ([] ++ [AstExpr.numberLit (some (.intL 1))]) = .pfuel :=
        c10_listBody2 f _
      simpa using h2

theorem c10_blockOrList0 : ∀ f, pBlockOrList c10toks f 0 = .pfuel
  | 0 => rfl
  | f + 1 => by
    have h : pBlockOrList c10toks (f + 1) 0 = pListBody c10toks f 1 [] := by
      with_unfolding_all rfl
    rw [h]
    exact c10_listBody1 f

theorem c10_primary0 : ∀ f, pPrimary c10toks f 0 = .pfuel
  | 0 => rfl
  | f + 1 => by
    have h : pPrimary c10toks (f + 1) 0 = pBlockOrList c10toks f 0 := by
      with_unfolding_all rfl
    rw [h]
    exact c10_blockOrList0 f

theorem c10_unary0 : ∀ f, pUnary c10toks f 0 = .pfuel
  | 0 => rfl
  | f + 1 => by
    have h : pUnary c10toks (f + 1) 0 = pPrimary c10toks f 0 := by
      with_unfolding_all rfl
    rw [h]
    exact c10_primary0 f

theorem c10_mult0 : ∀ f, pMultiplicative c10toks f 0 = .pfuel
  | 0 => rfl
  | f + 1 => by rw [pMultiplicative, c10_unary0 f]

theorem c10_add0 : ∀ f, pAdditive c10toks f 0 = .pfuel
  | 0 => rfl
  | f + 1 => by rw [pAdditive, c10_mult0 f]

theorem c10_comp0 : ∀ f, pComparison c10toks f 0 = .pfuel
  | 0 => rfl
  | f + 1 => by rw [pComparison, c10_add0 f]

theorem c10_and0 : ∀ f, pAnd c10toks f 0 = .pfuel
  | 0 => rfl
  | f + 1 => by rw [pAnd, c10_comp0 f]

theorem c10_or0 : ∀ f, pOr c10toks f 0 = .pfuel
  | 0 => rfl
  | f + 1 => by rw [pOr, c10_and0 f]

theorem c10_ternary0 : ∀ f, pTernary c10toks f 0 = .pfuel
  | 0 => rfl
  | f + 1 => by rw [pTernary, c10_or0 f]

theorem c10_expr0 : ∀ f, pExpression c10toks f 0 = .pfuel
  | 0 => rfl
  | f + 1 => by rw [pExpression]; exact c10_ternary0 f

theorem c10_exprStmt0 : ∀ f, pExprStmt c10toks f 0 = .pfuel
  | 0 => rfl
  | f + 1 => by rw [pExprStmt, c10_expr0 f]

theorem c10_statement0 : ∀ f, pStatement c10toks f 0 = .pfuel
  | 0 => rfl
  | f + 1 => by
    have h : pStatement c10toks (f + 1) 0 = pExprStmt c10toks f 0 := by
      with_unfolding_all rfl
    rw [h]
    exact c10_exprStmt0 f

theorem c10_parseLoop0 : ∀ (f : Nat) (stmts : List AstStmt) (errs : List String),
    parseLoop c10toks f 0 stmts errs = .pfuel
  | 0, _, _ => rfl
  | f + 1, stmts, errs => by
    rw [parseLoop]
    rw [c10_statement0 f]
    with_unfolding_all rfl

/-- The lexer really produces `c10toks` from the source `[ ೧ . ]`. -/
theorem c10_source_tokens : tokenize "[ ೧ . ]" = c10toks := by
  have hsp : ∀ l : List Char, skipWs (' ' :: l) = skipWs l := by
    intro l
    conv_lhs => rw [skipWs]
    simp
  have hstay : ∀ (c : Char) (l : List Char),
      ¬(c = ' ' ∨ c = '\t' ∨ c = '\r' ∨ c = '\n') → ¬(c = '/') →
      skipWs (c :: l) = c :: l := by
    intro c l h1 h2
    conv_lhs => rw [skipWs]
    simp [h1, h2]
  have hsw0 : skipWs ['[', ' ', '೧', ' ', '.', ' ', ']'] =
      '[' :: [' ', '೧', ' ', '.', ' ', ']'] := hstay '[' _ (by decide) (by decide)
  have hsw1 : skipWs [' ', '೧', ' ', '.', ' ', ']'] = '೧' :: [' ', '.', ' ', ']'] := by
    rw [hsp]
    exact hstay '೧' _ (by decide) (by decide)
  have hsw2 : skipWs [' ', '.', ' ', ']'] = '.' :: [' ', ']'] := by
    rw [hsp]
    exact hstay '.' _ (by decide) (by decide)
  have hsw3 : skipWs [' ', ']'] = ']' :: ([] : List Char) := by
    rw [hsp]
    exact hstay ']' _ (by decide) (by decide)
  have hsw4 : skipWs ([] : List Char) = [] := by rw [skipWs]
  have hnt0 : nextToken ['[', ' ', '೧', ' ', '.', ' ', ']'] =
      (mkTok .lbracket "[", [' ', '೧', ' ', '.', ' ', ']']) := by
    unfold nextToken
    rw [hsw0]
    with_unfolding_all rfl
  have hnt1 : nextToken [' ', '೧', ' ', '.', ' ', ']'] =
      (mkTok .number "೧" (some (.intL 1)), [' ', '.', ' ', ']']) := by
    unfold nextToken
    rw [hsw1]
    with_unfolding_all rfl
  have hnt2 : nextToken [' ', '.', ' ', ']'] = (mkTok .dot ".", [' ', ']']) := by
    unfold nextToken
    rw [hsw2]
    with_unfolding_all rfl
  have hnt3 : nextToken [' ', ']'] = (mkTok .rbracket "]", []) := by
    unfold nextToken
    rw [hsw3]
    with_unfolding_all rfl
  have hnt4 : nextToken [] = (mkTok .eof "", []) := by
    unfold nextToken
    rw [hsw4]
  have hsa4 : scanAll ([] : List Char) = [mkTok .eof ""] := by
    rw [scanAll, hnt4]
    with_unfolding_all rfl
  have hsa3 : scanAll [' ', ']'] = [mkTok .rbracket "]", mkTok .eof ""] := by
    rw [scanAll, hnt3]
    simp [mkTok, hsa4]
  have hsa2 : scanAll [' ', '.', ' ', ']'] =
      [mkTok .dot ".", mkTok .rbracket "]", mkTok .eof ""] := by
    rw [scanAll, hnt2]
    simp [mkTok, hsa3]
  have hsa1 : scanAll [' ', '೧', ' ', '.', ' ', ']'] =
      [mkTok .number "೧" (some (.intL 1)), mkTok .dot ".", mkTok .rbracket "]",
       mkTok .eof ""] := by
    rw [scanAll, hnt1]
    simp [mkTok, hsa2]
  have htl : ("[ ೧ . ]" : String).toList = ['[', ' ', '೧', ' ', '.', ' ', ']'] := rfl
  rw [tokenize, htl, scanAll, hnt0]
  simp [mkTok, hsa1, c10toks]

/-- C10: `Parser.parse` does NOT terminate on every finite token
sequence.  On the tokens of `[ ೧ . ]` — a bracketed span classified as a
List whose body contains a Dot — `Parser._primary` returns an empty Word
without consuming the Dot, `Parser._list_body` appends it and loops from
the same position, and `Parser.parse` never returns: in the fuelled
embedding the parser exhausts EVERY fuel bound (were the Python loop
terminating, some fuel would suffice). -/
theorem c10_parse_divergence :
    tokenize "[ ೧ . ]" = c10toks ∧ ∀ f : Nat, parseP c10toks f = .pfuel :=
  ⟨c10_source_tokens, fun f => c10_parseLoop0 f [] []⟩

end Kapila
